import Mathlib

/-!
Verification of the federation composition engine in `src/lib/federation.js`.

The source file contains two divergent implementations of the same module
(the spec flags this in its design notes).  We embed both: namespace `V1`
holds the first implementation (the one whose `extendFederationSchema`
feeds the whole parsed document to the engine and synthesizes a `Query`
root in both modes), namespace `V2` holds the second implementation (the
one whose `extendFederationSchema` drives stub insertion, definition
insertion and extension application separately, and whose `getStubTypes`
filters root names out of the stubs).

External collaborators (the graphql-js schema engine) are modelled
executably: a `Schema` is a type map (an insertion-ordered association
list) plus operation roots.  `extendSchemaModel` models the successful
path of `extendSchema`: a type definition inserts, a type extension
merges fields into an existing type, and an extension whose target is
absent is ignored (the behaviour of the call sites that pass
`assumeValid`/`assumeValidSDL`).  The source also calls `extendSchema`
without those options; there the engine first runs its SDL-extension
validation, whose one rule the fixed base federation documents can trip
— an extension of a type that is neither in the schema nor defined in
the same document — is modelled by `firstOrphanExtension`, and
`buildFederationSchema` of both implementations checks it on the base
document before extending (the second implementation's service-mode base
document does trip it, so that path always fails).  For the remaining
un-validated calls the theorems are conditional on the composition call
returning a schema.  The SDL validator and the composition rule set are
opaque collaborators, passed as a function parameter `validate`.
Parsing and printing are modelled at the document level: functions take
and return lists of parsed definitions, so a round trip through
`print`/`parse` is the identity.
-/

/-- Construct kinds of the five (plus input object) extensible SDL constructs. -/
inductive TKind where
  | object
  | interface
  | union
  | enum
  | scalar
  | inputObject
deriving DecidableEq, Repr

/-- Kind of a top-level declaration node: a type definition, a type extension,
a directive definition, or the undefined kind produced when the source
indexes its kind-translation tables with a key they do not contain
(JavaScript yields `undefined` there). -/
inductive DefKind where
  | typeDef (k : TKind)
  | typeExt (k : TKind)
  | directiveDef
  | undefKind
deriving DecidableEq, Repr

/-- A field declaration: a name and the names of its attached directives. -/
structure FieldDef where
  name : String
  directives : List String
deriving DecidableEq, Repr

/-- A top-level declaration node of the parsed document: kind, name, fields
and the names of its attached directives. -/
structure Definition where
  kind : DefKind
  name : String
  fields : List FieldDef
  directives : List String
deriving DecidableEq, Repr

/-- The lightweight extension record stored in the extensions map by
`getStubTypes`: only a kind and a name (source: the object literal with
`kind` and `name` pushed into `extensionsMap`). -/
structure StubRec where
  kind : DefKind
  name : String
deriving DecidableEq, Repr

/-- A type in the composed schema: its construct kind, its (merged) fields,
the directives of its own definition node (`astNode.directives`) and the
directives accumulated from its extension nodes (`extensionASTNodes`). -/
structure SType where
  kind : TKind
  fields : List FieldDef
  directives : List String
  extDirectives : List String
deriving DecidableEq, Repr

/-- The composed schema object: an insertion-ordered type map, the names of
the schema-level directives, the three operation roots, and the SDL
document installed by the `_service` resolver (modelled re-parsed, so the
print/parse round trip of the source is the identity here). -/
structure Schema where
  types : List (String × SType)
  directives : List String
  queryRoot : Option String
  mutationRoot : Option String
  subscriptionRoot : Option String
  serviceSdl : Option (List Definition)
deriving DecidableEq, Repr

/-- The schema `new GraphQLSchema(\x7b query: undefined \x7d)` both variants
start from. -/
def emptySchema : Schema :=
  ⟨[], [], none, none, none, none⟩

/-- The conventional root type names. -/
def rootNames : List String := ["Query", "Mutation", "Subscription"]

/-- Lookup in an insertion-ordered association list (models reading a
property of a JavaScript object used as a map). -/
def lookupA {α : Type} : List (String × α) → String → Option α
  | [], _ => none
  | (k, v) :: rest, n => if k = n then some v else lookupA rest n

/-- Insert or overwrite a key in an insertion-ordered association list
(models JavaScript object assignment: an existing key keeps its position,
a new key is appended). -/
def upsert {α : Type} : List (String × α) → String → α → List (String × α)
  | [], n, v => [(n, v)]
  | (k, w) :: rest, n, v =>
      if k = n then (k, v) :: rest else (k, w) :: upsert rest n v

/-- Merge extension fields over base fields, one field at a time, with the
JavaScript object-spread semantics the engine uses when rebuilding a
type's field map: a same-named field is overwritten in place, a new field
is appended. -/
def upsertField : List FieldDef → FieldDef → List FieldDef
  | [], f => [f]
  | g :: rest, f => if g.name = f.name then f :: rest else g :: upsertField rest f

/-- Merge a list of extension fields into a base field list. -/
def mergeFields (base ext : List FieldDef) : List FieldDef :=
  ext.foldl upsertField base

/-- Source `isTypeDefinitionNode` (a graphql-js predicate): the node is one
of the type definition kinds. -/
def isTypeDefinitionNode (d : Definition) : Bool :=
  match d.kind with
  | .typeDef _ => true
  | _ => false

/-- Source `isTypeExtensionNode` (a graphql-js predicate): the node is one
of the type extension kinds. -/
def isTypeExtensionNode (d : Definition) : Bool :=
  match d.kind with
  | .typeExt _ => true
  | _ => false

/-- Source table `extensionKindToDefinitionKind`; indexing it with a
non-extension kind yields `undefined` in JavaScript, modelled by
`undefKind`. -/
def extensionKindToDefinitionKind : DefKind → DefKind
  | .typeExt k => .typeDef k
  | _ => .undefKind

/-- Source table `definitionKindToExtensionKind`; indexing it with a
non-definition kind yields `undefined` in JavaScript, modelled by
`undefKind`. -/
def definitionKindToExtensionKind : DefKind → DefKind
  | .typeDef k => .typeExt k
  | _ => .undefKind

/-- Source `hasExtendsDirective`: the declaration carries a directive
application named `extends`. -/
def hasExtendsDirective (d : Definition) : Bool :=
  d.directives.any (· = "extends")

/-- Source `removeExternalFields` (identical in both variants): drop every
field carrying an `external` directive, keep everything else of the
declaration. -/
def removeExternalFields (d : Definition) : Definition :=
  { d with fields := d.fields.filter (fun f => ¬ f.directives.any (· = "external")) }

/-- One step of the schema-engine extension model: a type definition is
inserted (overwriting a same-named type), a type extension merges its
fields into an existing type and records its directives as extension
directives (and is ignored when its target type is absent, which is what
graphql-js does when SDL validation is skipped), a directive definition
is appended to the schema's directive list, and a node whose kind was
destroyed (`undefined`) is ignored. -/
def applyDef (s : Schema) (d : Definition) : Schema :=
  match d.kind with
  | .typeDef k =>
      { s with types := upsert s.types d.name ⟨k, d.fields, d.directives, []⟩ }
  | .typeExt _ =>
      match lookupA s.types d.name with
      | some t =>
          let t2 : SType :=
            { t with fields := mergeFields t.fields d.fields,
                     extDirectives := t.extDirectives ++ d.directives }
          { s with types := upsert s.types d.name t2 }
      | none => s
  | .directiveDef => { s with directives := s.directives ++ [d.name] }
  | .undefKind => s

/-- Model of the engine's `extendSchema` with validation skipped: fold the
document's definitions over the schema.  The operation roots are left
untouched (graphql-js `extendSchema` does not adopt a type named `Query`
as the query root by itself, which is why both variants rebuild the
schema with `getType` results as roots at the end). -/
def extendSchemaModel (s : Schema) (defs : List Definition) : Schema :=
  defs.foldl applyDef s

/-- The binding of one fixed type name after a list of definitions is
applied: a specification-side fold used to characterize
`extendSchemaModel` one name at a time. -/
def nameStep (b : Option SType) (d : Definition) : Option SType :=
  match d.kind with
  | .typeDef k => some ⟨k, d.fields, d.directives, []⟩
  | .typeExt _ =>
      match b with
      | some t => some { t with fields := mergeFields t.fields d.fields,
                                extDirectives := t.extDirectives ++ d.directives }
      | none => none
  | _ => b

/-- Fold of `nameStep` over a definition list. -/
def nameBinding (b : Option SType) (defs : List Definition) : Option SType :=
  defs.foldl nameStep b

/-- Rebuilding a schema with an empty object type named `Query` as its query
root, the synthesis step both variants use
(`new GraphQLSchema(\x7b ...toConfig(), query: new GraphQLObjectType(\x7b name, fields: \x7b\x7d \x7d) \x7d)`). -/
def setQueryStub (s : Schema) : Schema :=
  { s with types := upsert s.types "Query" ⟨.object, [], [], []⟩,
           queryRoot := some "Query" }

/-- The root assignment of the final `new GraphQLSchema` rebuild:
`query: schema.getType(name)` yields the type when present and `undefined`
otherwise. -/
def rootIfPresent (s : Schema) (n : String) : Option String :=
  if (lookupA s.types n).isSome then some n else none

/-- Source `gatherDirectives` membership test `typeIncludesDirective`:
directives are gathered from the extension nodes and the definition node
of a type. -/
def typeIncludesDirective (t : SType) (dn : String) : Bool :=
  (t.extDirectives ++ t.directives).any (· = dn)

/-- Whether the schema's `Query` type has a field of the given name
(`schema.getType(Query).getFields()[f]`). -/
def queryHasField (s : Schema) (f : String) : Bool :=
  match lookupA s.types "Query" with
  | some t => t.fields.any (fun g => g.name = f)
  | none => false

/-- The composition-failure value of both variants' error policy: a single
validation error is raised as itself, two or more are raised as one
aggregate error whose payload is the full ordered list (source: the
`Error` whose `.errors` property carries the list). -/
inductive BuildErr (E : Type) where
  | single (e : E)
  | aggregate (errors : List E)
deriving DecidableEq, Repr

/-- The possible-type-extensions rule of the engine's SDL-extension
validation, which `extendSchema` runs when called without an
`assumeValid`/`assumeValidSDL` option: a type extension whose target type
neither exists in the schema nor is defined as a type in the same
document is an error naming that type.  This is the one rule of that
validation the fixed base federation documents can trip (they contain no
duplicate names or other conflicts), so it models the un-validated base
`extendSchema` call of `buildFederationSchema`. -/
def firstOrphanExtension (s : Schema) (defs : List Definition) : Option String :=
  (defs.find? (fun d => isTypeExtensionNode d
      && (lookupA s.types d.name).isNone
      && ! defs.any (fun d2 => isTypeDefinitionNode d2 && d2.name == d.name))).map (·.name)

/-- Failure of a whole `buildFederationSchema` call: the SDL-extension
validation error thrown by the un-validated base `extendSchema` step
(carrying the orphan extension's target type name), or a composition
failure propagated from `extendFederationSchema`. -/
inductive BuildFail (E : Type) where
  | sdl (typename : String)
  | composition (e : BuildErr E)
deriving DecidableEq, Repr

/-- The five federation directive definitions plus the two federation
scalars, `BASE_FEDERATION_TYPES` of both variants, as a parsed document. -/
def baseFederationDefs : List Definition :=
  [⟨.typeDef .scalar, "_Any", [], []⟩,
   ⟨.typeDef .scalar, "_FieldSet", [], []⟩,
   ⟨.directiveDef, "external", [], []⟩,
   ⟨.directiveDef, "requires", [], []⟩,
   ⟨.directiveDef, "provides", [], []⟩,
   ⟨.directiveDef, "key", [], []⟩,
   ⟨.directiveDef, "extends", [], []⟩]

/-- The partition state built by one pass of `getStubTypes` over the
document: the definitions map, the extensions map, the ordered extension
list and the ordered directive-definition list. -/
structure PartitionState where
  definitionsMap : List (String × Definition)
  extensionsMap : List (String × StubRec)
  extensions : List Definition
  directiveDefinitions : List Definition
deriving DecidableEq, Repr

/-- The empty partition state. -/
def initPartition : PartitionState := ⟨[], [], [], []⟩

/-- The output record of `getStubTypes`. -/
structure StubResult where
  typeStubs : List StubRec
  extensions : List Definition
  definitions : List Definition
deriving DecidableEq, Repr

/-- A stub record used as a schema definition node: it carries only a kind
and a name, so the engine builds an empty type from it. -/
def stubToDefinition (r : StubRec) : Definition :=
  ⟨r.kind, r.name, [], []⟩

namespace V2

/-- One iteration of the `getStubTypes` loop of the second implementation:
a type definition without an `extends` directive goes to the definitions
map; an extension node, or a definition node tagged `extends`, records a
kind-and-name stub in the extensions map (the stored kind is always the
matching definition kind), has its own kind rewritten to the matching
extension kind when it was `extends`-tagged, and is pushed onto the
extensions list with its `external` fields removed in gateway mode;
directive definitions are collected separately; anything else is
dropped. -/
def processDef (isGateway : Bool) (st : PartitionState) (d : Definition) : PartitionState :=
  let isExtByDir := hasExtendsDirective d
  if isTypeDefinitionNode d ∧ ¬ isExtByDir then
    { st with definitionsMap := upsert st.definitionsMap d.name d }
  else if isTypeExtensionNode d ∨ (isTypeDefinitionNode d ∧ isExtByDir) then
    let stub : StubRec :=
      ⟨if isExtByDir then d.kind else extensionKindToDefinitionKind d.kind, d.name⟩
    let d2 : Definition :=
      if isExtByDir then { d with kind := definitionKindToExtensionKind d.kind } else d
    { st with extensionsMap := upsert st.extensionsMap d.name stub,
              extensions := st.extensions ++ [if isGateway then removeExternalFields d2 else d2] }
  else if d.kind = .directiveDef then
    { st with directiveDefinitions := st.directiveDefinitions ++ [d] }
  else st

/-- Source `getStubTypes` of the second implementation: single pass over the
document, then stubs are the extension-map entries with no matching base
definition and whose name is not a conventional root name. -/
def getStubTypes (schemaDefinitions : List Definition) (isGateway : Bool) : StubResult :=
  let st := schemaDefinitions.foldl (processDef isGateway) initPartition
  { typeStubs :=
      (st.extensionsMap.filter
        (fun p => (lookupA st.definitionsMap p.1).isNone ∧ ¬ p.1 ∈ rootNames)).map (·.2),
    extensions := st.extensions,
    definitions := st.directiveDefinitions ++ st.definitionsMap.map (·.2) }

/-- Source `addEntitiesResolver` of the second implementation (schema part):
when at least one object type carries a `key` directive, the schema is
extended with the `_Entity` union and an `_entities` field on `Query`
(ignored by the engine when `Query` is absent, matching `assumeValid`).
The installed resolver function itself is modelled separately by
`entitiesResolve`. -/
def addEntitiesResolver (s : Schema) : Schema :=
  let entityTypes := s.types.filter (fun p => p.2.kind = .object ∧ typeIncludesDirective p.2 "key")
  if entityTypes.isEmpty then s
  else
    extendSchemaModel s
      [⟨.typeDef .union, "_Entity", [], []⟩,
       ⟨.typeExt .object, "Query", [⟨"_entities", []⟩], []⟩]

/-- Source `getServiceSDL` of the second implementation: filter the five
federation directives out of the schema's directive list, drop the types
named `_Any` and `_FieldSet`, delete the `_service` and `_entities`
fields of `Query`, and print what remains.  A `Query` left with zero
fields is still printed (as a field-less type definition); the function
has no handling for the `_Entity` union or the `_Service` type (the
source carries a TODO for the union).  Printing is modelled as the
re-parsed document: one type definition per remaining type. -/
def getServiceSDL (s : Schema) : List Definition :=
  let types1 := s.types.filter (fun p => p.1 ≠ "_Any" ∧ p.1 ≠ "_FieldSet")
  let types2 := types1.map (fun p =>
    if p.1 = "Query" then
      let fs := p.2.fields.filter (fun f => f.name ≠ "_service" ∧ f.name ≠ "_entities")
      (p.1, { p.2 with fields := fs })
    else p)
  types2.map (fun p => ⟨.typeDef p.2.kind, p.1, p.2.fields, []⟩)

/-- Source `addServiceResolver` of the second implementation: it only
installs a `_service` resolver returning the SDL computed earlier (the
schema-extension step is commented out in this variant), modelled by
recording the SDL document on the schema. -/
def addServiceResolver (s : Schema) (sdl : List Definition) : Schema :=
  { s with serviceSdl := some sdl }

/-- The schema against which the second implementation validates: the
original schema extended with the synthesized stubs and then with the
directive definitions and base type definitions. -/
def preValidationSchema (originalSchema : Schema) (docDefs : List Definition)
    (isGateway : Bool) : Schema :=
  let p := getStubTypes docDefs isGateway
  extendSchemaModel (extendSchemaModel originalSchema (p.typeStubs.map stubToDefinition))
    p.definitions

/-- The error list the second implementation's `validateSDL` call reports:
the composition validator run on the extensions document against the
schema built so far. -/
def validationErrors {E : Type} (validate : List Definition → Schema → List E)
    (originalSchema : Schema) (docDefs : List Definition) (isGateway : Bool) : List E :=
  validate (getStubTypes docDefs isGateway).extensions
    (preValidationSchema originalSchema docDefs isGateway)

/-- Source `extendFederationSchema` of the second implementation: partition
the document, merge stubs then definitions, validate the extensions with
the single-or-aggregate error policy, merge the extensions, and in
service mode synthesize an empty `Query` when none exists, compute the
service SDL, and install the `_service` and `_entities` resolvers. -/
def extendFederationSchema {E : Type} (validate : List Definition → Schema → List E)
    (originalSchema : Schema) (docDefs : List Definition) (isGateway : Bool) :
    Except (BuildErr E) Schema :=
  let p := getStubTypes docDefs isGateway
  let s2 := preValidationSchema originalSchema docDefs isGateway
  match validationErrors validate originalSchema docDefs isGateway with
  | [e] => .error (.single e)
  | [] =>
      let s3 := extendSchemaModel s2 p.extensions
      if isGateway then .ok s3
      else
        let s4 := if (lookupA s3.types "Query").isSome then s3 else setQueryStub s3
        let sdl := getServiceSDL s4
        .ok (addEntitiesResolver (addServiceResolver s4 sdl))
  | e1 :: e2 :: rest => .error (.aggregate (e1 :: e2 :: rest))

/-- The `FEDERATION_SCHEMA` document of the second implementation: the base
federation types, the `_Service` type and an extension adding `_service`
to `Query`. -/
def federationSchemaDefs : List Definition :=
  baseFederationDefs ++
    [⟨.typeDef .object, "_Service", [⟨"sdl", []⟩], []⟩,
     ⟨.typeExt .object, "Query", [⟨"_service", []⟩], []⟩]

/-- Source `buildFederationSchema` of the second implementation: extend the
empty schema with the base federation document — a call made without an
`assumeValid` option, so the engine's SDL-extension validation runs and
throws on an orphan extension; the service-mode base document contains
`extend type Query` with no `Query` anywhere, so that path always throws
— then run `extendFederationSchema` and rebuild the schema taking each
operation root from the type map by name. -/
def buildFederationSchema {E : Type} (validate : List Definition → Schema → List E)
    (docDefs : List Definition) (isGateway : Bool) : Except (BuildFail E) Schema :=
  let baseDoc := if isGateway then baseFederationDefs else federationSchemaDefs
  match firstOrphanExtension emptySchema baseDoc with
  | some n => .error (.sdl n)
  | none =>
      let base := extendSchemaModel emptySchema baseDoc
      match extendFederationSchema validate base docDefs isGateway with
      | .error e => .error (.composition e)
      | .ok s =>
          .ok { s with queryRoot := rootIfPresent s "Query",
                       mutationRoot := rootIfPresent s "Mutation",
                       subscriptionRoot := rootIfPresent s "Subscription" }

end V2

/-- Model of the engine's `printSchema` followed by `parse`: one type
definition node per type of the schema's type map, carrying the merged
fields.  Applied directive lists are not printed by the engine's schema
printer, so the printed nodes carry none. -/
def printSchemaModel (s : Schema) : List Definition :=
  s.types.map (fun p => ⟨.typeDef p.2.kind, p.1, p.2.fields, []⟩)

namespace V1

/-- One iteration of the `getStubTypes` loop of the first implementation:
in gateway mode a declaration named after a conventional root is first
force-classified as an extension (its kind is rewritten through
`definitionKindToExtensionKind`, which yields the undefined kind when the
declaration was already written with extension syntax); then the same
classification as the second implementation runs on the possibly
rewritten node. -/
def processDef (isGateway : Bool) (st : PartitionState) (d : Definition) : PartitionState :=
  let forced := isGateway ∧ d.name ∈ rootNames
  let st1 :=
    if forced then
      { st with extensionsMap :=
          upsert st.extensionsMap d.name ⟨definitionKindToExtensionKind d.kind, d.name⟩ }
    else st
  let d1 := if forced then { d with kind := definitionKindToExtensionKind d.kind } else d
  let isExtByDir := hasExtendsDirective d1
  if isTypeDefinitionNode d1 ∧ ¬ isExtByDir then
    { st1 with definitionsMap := upsert st1.definitionsMap d1.name d1 }
  else if isTypeExtensionNode d1 ∨ (isTypeDefinitionNode d1 ∧ isExtByDir) then
    let stub : StubRec :=
      ⟨if isExtByDir then d1.kind else extensionKindToDefinitionKind d1.kind, d1.name⟩
    let d2 : Definition :=
      if isExtByDir then { d1 with kind := definitionKindToExtensionKind d1.kind } else d1
    { st1 with extensionsMap := upsert st1.extensionsMap d1.name stub,
               extensions := st1.extensions ++ [if isGateway then removeExternalFields d2 else d2] }
  else if d1.kind = .directiveDef then
    { st1 with directiveDefinitions := st1.directiveDefinitions ++ [d1] }
  else st1

/-- Source `getStubTypes` of the first implementation: same single pass,
but the stub filter keeps every extension-map entry with no matching base
definition, with no exclusion of the conventional root names. -/
def getStubTypes (schemaDefinitions : List Definition) (isGateway : Bool) : StubResult :=
  let st := schemaDefinitions.foldl (processDef isGateway) initPartition
  { typeStubs :=
      (st.extensionsMap.filter (fun p => (lookupA st.definitionsMap p.1).isNone)).map (·.2),
    extensions := st.extensions,
    definitions := st.directiveDefinitions ++ st.definitionsMap.map (·.2) }

/-- The per-node visitor of `stripCommonPrimitives` for object type
definitions and object type extensions: on `Query`, drop the `_service`
and `_entities` fields and drop the whole node when nothing remains; drop
the `_Service` type; keep everything else. -/
def typeDefinitionVisitor (d : Definition) : Option Definition :=
  if d.name = "Query" then
    if (d.fields.filter (fun f => ¬ (f.name = "_service" ∨ f.name = "_entities"))).isEmpty
    then none
    else some { d with
      fields := d.fields.filter (fun f => ¬ (f.name = "_service" ∨ f.name = "_entities")) }
  else if d.name = "_Service" then none
  else some d

/-- The visit dispatch of `stripCommonPrimitives` on one node: directive
definitions are kept (the common-directive removal is disabled in the
source), federation scalars `_Any` and `_FieldSet` are dropped, the
`_Entity` union is dropped, object definitions and extensions go through
`typeDefinitionVisitor`, and every other node is untouched. -/
def stripNode (d : Definition) : Option Definition :=
  match d.kind with
  | .directiveDef => some d
  | .typeDef .scalar => if d.name = "_Any" ∨ d.name = "_FieldSet" then none else some d
  | .typeDef .union => if d.name = "_Entity" then none else some d
  | .typeDef .object => typeDefinitionVisitor d
  | .typeExt .object => typeDefinitionVisitor d
  | _ => some d

/-- Source `stripCommonPrimitives` of the first implementation: the visit
over the document with the node handlers above. -/
def stripCommonPrimitives (document : List Definition) : List Definition :=
  document.filterMap stripNode

/-- Source `addEntitiesResolver` of the first implementation (schema part):
as in the second implementation, but the schema is only extended when
`Query` does not already have an `_entities` field. -/
def addEntitiesResolver (s : Schema) : Schema :=
  let entityTypes := s.types.filter (fun p => p.2.kind = .object ∧ typeIncludesDirective p.2 "key")
  if entityTypes.isEmpty then s
  else if queryHasField s "_entities" then s
  else
    extendSchemaModel s
      [⟨.typeDef .union, "_Entity", [], []⟩,
       ⟨.typeExt .object, "Query", [⟨"_entities", []⟩], []⟩]

/-- The schema `addServiceResolver` of the first implementation prints: the
input schema, extended with a `_service` field on `Query` when absent. -/
def serviceExtended (s : Schema) : Schema :=
  if queryHasField s "_service" then s
  else extendSchemaModel s [⟨.typeExt .object, "Query", [⟨"_service", []⟩], []⟩]

/-- Source `addServiceResolver` of the first implementation: add the
`_service` field when missing, then install a resolver returning the
schema printed, re-parsed, stripped by `stripCommonPrimitives` and
re-printed, modelled as the stripped document. -/
def addServiceResolver (s : Schema) : Schema :=
  let s2 := serviceExtended s
  { s2 with serviceSdl := some (stripCommonPrimitives (printSchemaModel s2)) }

/-- The schema against which the first implementation validates: the
original schema, pre-seeded with an empty `Query` root when it has no
`Query` type but the document contains a definition named `Query`. -/
def preValidationSchema (originalSchema : Schema) (docDefs : List Definition) : Schema :=
  if (lookupA originalSchema.types "Query").isNone ∧ docDefs.any (fun d => d.name = "Query")
  then setQueryStub originalSchema
  else originalSchema

/-- The error list the first implementation's `validateSDL` call reports:
the composition validator run on the whole document against the possibly
pre-seeded schema. -/
def validationErrors {E : Type} (validate : List Definition → Schema → List E)
    (originalSchema : Schema) (docDefs : List Definition) : List E :=
  validate docDefs (preValidationSchema originalSchema docDefs)

/-- Source `extendFederationSchema` of the first implementation: pre-seed a
`Query` root when needed, validate the whole document with the
single-or-aggregate error policy, extend the schema with the whole
document, synthesize an empty `Query` when none exists after the merge
(in both modes), install the `_entities` and `_service` resolvers in
service mode, and rebuild the schema taking each operation root from the
type map by name. -/
def extendFederationSchema {E : Type} (validate : List Definition → Schema → List E)
    (originalSchema : Schema) (docDefs : List Definition) (isGateway : Bool) :
    Except (BuildErr E) Schema :=
  let s1 := preValidationSchema originalSchema docDefs
  match validationErrors validate originalSchema docDefs with
  | [e] => .error (.single e)
  | [] =>
      let s2 := extendSchemaModel s1 docDefs
      let s3 := if (lookupA s2.types "Query").isSome then s2 else setQueryStub s2
      let s4 := if isGateway then s3 else addServiceResolver (addEntitiesResolver s3)
      .ok { s4 with queryRoot := rootIfPresent s4 "Query",
                    mutationRoot := rootIfPresent s4 "Mutation",
                    subscriptionRoot := rootIfPresent s4 "Subscription" }
  | e1 :: e2 :: rest => .error (.aggregate (e1 :: e2 :: rest))

/-- The `FEDERATION_SCHEMA` document of the first implementation: the base
federation types and the `_Service` type. -/
def federationSchemaDefs : List Definition :=
  baseFederationDefs ++ [⟨.typeDef .object, "_Service", [⟨"sdl", []⟩], []⟩]

/-- Source `buildFederationSchema` of the first implementation: extend the
empty schema with the base federation document — also a call without an
`assumeValid` option, but both of this implementation's base documents
contain no type extensions, so the SDL-extension validation passes —
then run `extendFederationSchema` (which already performs the final root
rebuild). -/
def buildFederationSchema {E : Type} (validate : List Definition → Schema → List E)
    (docDefs : List Definition) (isGateway : Bool) : Except (BuildFail E) Schema :=
  let baseDoc := if isGateway then baseFederationDefs else federationSchemaDefs
  match firstOrphanExtension emptySchema baseDoc with
  | some n => .error (.sdl n)
  | none =>
      match extendFederationSchema validate (extendSchemaModel emptySchema baseDoc)
          docDefs isGateway with
      | .error e => .error (.composition e)
      | .ok s => .ok s

end V1

/-- Runtime errors of the entity-resolution path: the TypeError raised by
JavaScript evaluation, and the unknown-entity-type error both variants
throw when a representation names a type that is absent or not an object
type (the first variant throws `MER_ERR_GQL_GATEWAY_INVALID_SCHEMA`, the
second a plain `Error`; both carry the offending type name). -/
inductive JSErr where
  | typeError (msg : String)
  | unknownEntity (typename : String)
deriving DecidableEq, Repr

mutual
/-- A JavaScript value as the resolver path observes it: primitives, plain
objects with own properties, and promises (fulfilled or rejected), which
are objects with own properties plus a callable inherited `then`. -/
inductive JSValue where
  | vNull
  | vUndefined
  | vBool (b : Bool)
  | vNum (n : Int)
  | vStr (s : String)
  | vObj (props : PropList)
  | vProm (props : PropList) (val : JSValue)
  | vPromErr (props : PropList) (rej : JSErr)
deriving DecidableEq, Repr

/-- Own properties of a JavaScript object, in insertion order, each with
its value and its writable, enumerable and configurable attributes. -/
inductive PropList where
  | nil
  | cons (key : String) (val : JSValue) (writable enumerable configurable : Bool)
      (rest : PropList)
deriving DecidableEq, Repr
end

/-- Whether the property list has an own property of the given name. -/
def hasOwn : PropList → String → Bool
  | .nil, _ => false
  | .cons k _ _ _ _ rest, n => if k = n then true else hasOwn rest n

/-- Reading an own property: the value when present, `undefined` otherwise. -/
def getOwn : PropList → String → JSValue
  | .nil, _ => .vUndefined
  | .cons k v _ _ _ rest, n => if k = n then v else getOwn rest n

/-- The attribute triple (writable, enumerable, configurable) of an own
property, when present. -/
def ownAttrs : PropList → String → Option (Bool × Bool × Bool)
  | .nil, _ => none
  | .cons k _ w e c rest, n => if k = n then some (w, e, c) else ownAttrs rest n

/-- The semantics of `Object.defineProperty(obj, key, \x7b value \x7d)` on a
property list: an absent property is created with all attributes false
(the descriptor defaults); an existing configurable or writable property
has its value replaced and its attributes kept (unspecified attributes of
an existing property are retained); an existing non-configurable
non-writable property accepts only the same value and otherwise raises a
TypeError. -/
def defineInProps : PropList → String → JSValue → Except JSErr PropList
  | .nil, n, v => .ok (.cons n v false false false .nil)
  | .cons k w wr en cf rest, n, v =>
      if k = n then
        if cf then .ok (.cons k v wr en cf rest)
        else if wr then .ok (.cons k v wr en cf rest)
        else if w = v then .ok (.cons k w wr en cf rest)
        else .error (.typeError "Cannot redefine property")
      else (defineInProps rest n v).map (fun r => .cons k w wr en cf r)

/-- Source `addTypeNameToResult` (identical in both variants): when the
result is a non-null value of JavaScript type `object`, define a
`__typename` property on it via `Object.defineProperty` with a
value-only descriptor and return it; otherwise return it unchanged. -/
def addTypeNameToResult (result : JSValue) (typename : String) : Except JSErr JSValue :=
  match result with
  | .vObj props => (defineInProps props "__typename" (.vStr typename)).map .vObj
  | .vProm props x => (defineInProps props "__typename" (.vStr typename)).map (.vProm · x)
  | .vPromErr props e => (defineInProps props "__typename" (.vStr typename)).map (.vPromErr · e)
  | other => .ok other

/-- JavaScript truthiness of a value. -/
def truthy : JSValue → Bool
  | .vNull => false
  | .vUndefined => false
  | .vBool b => b
  | .vNum n => n ≠ 0
  | .vStr s => s ≠ ""
  | .vObj _ => true
  | .vProm _ _ => true
  | .vPromErr _ _ => true

/-- Whether a value is a JavaScript primitive (the `in` operator refuses
to search these). -/
def isPrimitiveJS : JSValue → Bool
  | .vBool _ => true
  | .vNum _ => true
  | .vStr _ => true
  | .vNull => true
  | .vUndefined => true
  | _ => false

/-- The JavaScript `in` operator: membership (own or inherited) on an
object, a TypeError on a primitive.  A promise inherits `then` from its
prototype. -/
def jsIn (k : String) : JSValue → Except JSErr Bool
  | .vObj props => .ok (hasOwn props k)
  | .vProm props _ => .ok (k = "then" ∨ hasOwn props k)
  | .vPromErr props _ => .ok (k = "then" ∨ hasOwn props k)
  | _ => .error (.typeError "Cannot use in operator to search in a primitive")

/-- Whether `result.then` is a callable function: true exactly for
promises (no function values exist in the model, so an own `then`
property of a plain object is never callable). -/
def thenCallable : JSValue → Bool
  | .vProm _ _ => true
  | .vPromErr _ _ => true
  | _ => false

/-- The call `result.then(x => addTypeNameToResult(x, typename))` on a
promise: a new promise whose fulfillment value is the tagged resolved
value, rejected when the callback throws, and a rejected promise
propagates its rejection. -/
def promiseThen (result : JSValue) (typename : String) : JSValue :=
  match result with
  | .vProm _ x =>
      match addTypeNameToResult x typename with
      | .ok w => .vProm .nil w
      | .error e => .vPromErr .nil e
  | .vPromErr _ e => .vPromErr .nil e
  | other => other

/-- The destructuring `const \x7b __typename \x7d = reference`: a TypeError on
null or undefined, the own property (or `undefined`) on an object, and
`undefined` on a boxed primitive. -/
def getTypename : JSValue → Except JSErr JSValue
  | .vNull => .error (.typeError "Cannot destructure property of null")
  | .vUndefined => .error (.typeError "Cannot destructure property of undefined")
  | .vObj props => .ok (getOwn props "__typename")
  | .vProm props _ => .ok (getOwn props "__typename")
  | .vPromErr props _ => .ok (getOwn props "__typename")
  | _ => .ok .vUndefined

/-- JavaScript string interpolation of a value into the error message. -/
def jsDisplay : JSValue → String
  | .vNull => "null"
  | .vUndefined => "undefined"
  | .vBool b => if b then "true" else "false"
  | .vNum n => toString n
  | .vStr s => s
  | _ => "[object Object]"

/-- The construct kind a type name resolves to in the schema the resolver
consults (`info.schema.getType`), abstracted to a name-to-kind map. -/
def resolverTypeMap : Type := List (String × TKind)

/-- The per-element body of the `_entities` resolver (identical in logic in
both variants): read the representation's declared `__typename`, look the
name up in the schema and fail with the unknown-entity error when the
type is absent or not an object type; otherwise invoke the type's
reference resolver (defaulting to returning the representation), and tag
the result (through `then` when the result is truthy with a callable
`then`, directly otherwise) with the declared type name. -/
def resolveRepresentation (tm : List (String × TKind))
    (resolvers : String → Option (JSValue → JSValue)) (reference : JSValue) :
    Except JSErr JSValue :=
  match getTypename reference with
  | .error e => .error e
  | .ok tn =>
      match tn with
      | .vStr s =>
          match lookupA tm s with
          | some .object =>
              let resolveReference :=
                match resolvers s with
                | some f => f
                | none => fun _ => reference
              let result := resolveReference reference
              if truthy result then
                match jsIn "then" result with
                | .error e => .error e
                | .ok true =>
                    if thenCallable result then .ok (promiseThen result s)
                    else addTypeNameToResult result s
                | .ok false => addTypeNameToResult result s
              else addTypeNameToResult result s
          | _ => .error (.unknownEntity s)
      | other => .error (.unknownEntity (jsDisplay other))

/-- Sequential `Array.prototype.map` with a callback that can throw: the
first thrown error aborts the whole map and propagates. -/
def mapExcept {α β ε : Type} (f : α → Except ε β) : List α → Except ε (List β)
  | [] => .ok []
  | a :: rest =>
      match f a with
      | .error e => .error e
      | .ok b => (mapExcept f rest).map (fun bs => b :: bs)

/-- The synthesized `_entities` resolver body:
`representations.map(reference => ...)` over the per-element body. -/
def entitiesResolve (tm : List (String × TKind))
    (resolvers : String → Option (JSValue → JSValue))
    (representations : List JSValue) : Except JSErr (List JSValue) :=
  mapExcept (resolveRepresentation tm resolvers) representations

/-- The condition of the unknown-entity failure for one representation: its
declared type name, when that name is absent from the schema or not an
object type (the name is the interpolation of a non-string `__typename`
when the representation carries none). -/
def representationTypeError (tm : List (String × TKind)) (reference : JSValue) :
    Option String :=
  match getTypename reference with
  | .error _ => none
  | .ok tn =>
      match tn with
      | .vStr s =>
          match lookupA tm s with
          | some .object => none
          | _ => some s
      | other => some (jsDisplay other)

/-- The payload of a successful composition result, with a fallback value,
used to state closed witness facts about computed schemas. -/
def getOk {E A : Type} (x : Except E A) (d : A) : A :=
  match x with
  | .ok a => a
  | .error _ => d

/-- A composition validator reporting no errors, standing in for a rule set
the document satisfies. -/
def noErrValidate : List Definition → Schema → List Unit := fun _ _ => []

/-- A document consisting of one plain object type, used as a concrete
input. -/
def userOnlyDoc : List Definition :=
  [⟨.typeDef .object, "User", [⟨"id", []⟩], []⟩]

/-- The schema the first implementation composes from the empty document in
gateway mode. -/
def c1wSchema : Schema :=
  getOk (V1.buildFederationSchema noErrValidate [] true) emptySchema

/-- The schema the second implementation composes when its exported
`extendFederationSchema` is called directly in service mode on the plain
base federation type schema (buildable for real: that base document has
no type extensions, so the source's un-validated `extendSchema` accepts
it) with a document whose `Query` carries exactly the fields `_service`
and `_entities`; used to observe the reflected service SDL.  The
service-mode `buildFederationSchema` wrapper is unavailable as an entry
point here, since its own base document always trips the SDL-extension
validation. -/
def c6wSchema : Schema :=
  getOk (V2.extendFederationSchema noErrValidate
    (extendSchemaModel emptySchema baseFederationDefs)
    [⟨.typeDef .object, "Query", [⟨"_service", []⟩, ⟨"_entities", []⟩], []⟩,
     ⟨.typeDef .object, "User", [⟨"id", []⟩], []⟩] false) emptySchema

/-- Classification index of a declaration as the `getStubTypes` loop of the
second implementation sees it: 0 = base definition, 1 = extension (by
syntax or by `extends` directive), 2 = directive definition, 3 =
ignored. -/
def declClass (d : Definition) : Nat :=
  if isTypeDefinitionNode d ∧ ¬ hasExtendsDirective d then 0
  else if isTypeExtensionNode d ∨ (isTypeDefinitionNode d ∧ hasExtendsDirective d) then 1
  else if d.kind = .directiveDef then 2
  else 3

/-- The kind `getStubTypes` stores in the extension record for a
declaration classified as an extension. -/
def stubKind (d : Definition) : DefKind :=
  if hasExtendsDirective d then d.kind else extensionKindToDefinitionKind d.kind

/-- The declaration `getStubTypes` pushes onto the extensions list for a
declaration classified as an extension: the kind of an `extends`-tagged
node is rewritten to the matching extension kind, and in gateway mode the
`external` fields are removed. -/
def transformExt (g : Bool) (d : Definition) : Definition :=
  let d2 := if hasExtendsDirective d then { d with kind := definitionKindToExtensionKind d.kind } else d
  if g then removeExternalFields d2 else d2

/-- A declaration that is an extension in one of the two well-formed ways:
written with extension syntax and not `extends`-tagged, or written with
definition syntax and `extends`-tagged. -/
def goodExtensionDecl (d : Definition) : Prop :=
  (isTypeExtensionNode d = true ∧ hasExtendsDirective d = false)
  ∨ (isTypeDefinitionNode d = true ∧ hasExtendsDirective d = true)

/-- The fields the extensions of one type name contribute to the composed
type: the field merge of the pushed extension declarations for that name,
in document order, starting from the empty stub. -/
def contributedFields (docDefs : List Definition) (X : String) (g : Bool) : List FieldDef :=
  (docDefs.filter (fun d => d.name = X)).foldl
    (fun acc d => mergeFields acc (transformExt g d).fields) []

/-- Appending a fresh property at the end of a property list, the insertion
position `Object.defineProperty` uses for an absent property. -/
def appendProp : PropList → String → JSValue → PropList
  | .nil, k, v => .cons k v false false false .nil
  | .cons k0 v0 w e c rest, k, v => .cons k0 v0 w e c (appendProp rest k v)

/-- The attribute triple of the `__typename` property of a successfully
returned plain object, used to observe what `addTypeNameToResult`
produced. -/
def objTypenameAttrs (x : Except JSErr JSValue) : Option (Bool × Bool × Bool) :=
  match x with
  | .ok (.vObj ps) => ownAttrs ps "__typename"
  | _ => none

/-- Whether a document contains a node named `Query`. -/
def hasQueryDef (doc : List Definition) : Bool :=
  doc.any (fun d => d.name = "Query")

/-- The resolver table with no reference resolver registered for any type. -/
def noResolvers : String → Option (JSValue → JSValue) := fun _ => none

/-- A representation object carrying its declared type name as an ordinary
(writable, enumerable, configurable) `__typename` property, the shape a
JSON-decoded representation has. -/
def mkRep (tn : String) : JSValue :=
  .vObj (.cons "__typename" (.vStr tn) true true true .nil)

/-- A document declaring one non-root type through extension syntax only. -/
def c3Doc : List Definition := [⟨.typeExt .object, "Product", [⟨"id", []⟩], []⟩]

/-- A resolver-side type map with a single object type. -/
def c4Tm : List (String × TKind) := [("User", .object)]

/-- Representations whose middle element names a type absent from the
schema. -/
def c4Reps : List JSValue := [mkRep "User", mkRep "Nope", mkRep "User"]

/-- A resolver-side type map with three object types. -/
def entTm : List (String × TKind) := [("User", .object), ("Product", .object), ("Team", .object)]

/-- Reference resolvers returning an immediate value for `User`, a deferred
value for `Product`, and nothing for `Team` (so the default resolver
returns the representation). -/
def c5Resolvers : String → Option (JSValue → JSValue) :=
  fun s =>
    if s = "User" then some (fun _ => .vObj .nil)
    else if s = "Product" then some (fun _ => .vProm .nil (.vObj .nil))
    else none

/-- Representations mixing an immediate resolver, a deferred resolver and
the default resolver. -/
def c5Reps : List JSValue := [mkRep "User", mkRep "Product", mkRep "Team"]

/-- The output array of the `_entities` resolver on `c5Reps`. -/
def c5wOut : List JSValue := getOk (entitiesResolve entTm c5Resolvers c5Reps) []

/-- A composed service schema whose `Query` carries exactly the `_service`
and `_entities` fields. -/
def c6sIn : Schema :=
  ⟨[("Query", ⟨.object, [⟨"_service", []⟩, ⟨"_entities", []⟩], [], []⟩),
    ("User", ⟨.object, [⟨"id", []⟩], [], []⟩)],
   [], some "Query", none, none, none⟩

/-- The service SDL the first implementation reflects for `c6sIn`. -/
def c6wOut : List Definition := (V1.addServiceResolver c6sIn).serviceSdl.getD []

/-- A document declaring one non-root type through extension syntax only,
with one `external` field. -/
def c7Doc : List Definition :=
  [⟨.typeExt .object, "Product", [⟨"id", []⟩, ⟨"price", ["external"]⟩], []⟩]

/-- The schema the second implementation composes for `c7Doc` in gateway
mode. -/
def c7wSchema : Schema :=
  getOk (V2.extendFederationSchema noErrValidate
    (extendSchemaModel emptySchema baseFederationDefs) c7Doc true) emptySchema

/-- A document with one extension carrying an `external` field next to a
plain field. -/
def c8Doc : List Definition :=
  [⟨.typeExt .object, "Product", [⟨"id", []⟩, ⟨"secret", ["external"]⟩], []⟩]

theorem lookupA_upsert {α : Type} (m : List (String × α)) (k : String) (v : α)
    (n : String) :
    lookupA (upsert m k v) n = if k = n then some v else lookupA m n := by
  induction m with
  | nil => by_cases h : k = n <;> simp [upsert, lookupA, h]
  | cons p rest ih =>
      obtain ⟨k0, v0⟩ := p
      by_cases h0 : k0 = k
      · subst h0
        by_cases h : k0 = n <;> simp [upsert, lookupA, h, ih]
      · by_cases h : k0 = n
        · subst h
          simp [upsert, lookupA, h0, Ne.symm h0]
        · simp [upsert, lookupA, h0, h, ih]

theorem lookupA_extendSchemaModel (defs : List Definition) (s : Schema) (n : String) :
    lookupA (extendSchemaModel s defs).types n
      = nameBinding (lookupA s.types n) (defs.filter (fun d => d.name = n)) := by
  induction defs generalizing s with
  | nil => rfl
  | cons d rest ih =>
      have hstep : lookupA (applyDef s d).types n
          = (if d.name = n then nameStep (lookupA s.types n) d else lookupA s.types n) := by
        by_cases hn : d.name = n
        · cases hk : d.kind with
          | typeDef k => simp [applyDef, hk, nameStep, lookupA_upsert, hn]
          | typeExt k =>
              cases hl : lookupA s.types d.name with
              | none => simp [applyDef, hk, nameStep, hn, hl, hn ▸ hl]
              | some t => simp [applyDef, hk, nameStep, hn, hl, hn ▸ hl, lookupA_upsert]
          | directiveDef => simp [applyDef, hk, nameStep, hn]
          | undefKind => simp [applyDef, hk, nameStep, hn]
        · cases hk : d.kind with
          | typeDef k => simp [applyDef, hk, lookupA_upsert, hn]
          | typeExt k =>
              cases hl : lookupA s.types d.name with
              | none => simp [applyDef, hk, hn, hl]
              | some t => simp [applyDef, hk, hn, hl, lookupA_upsert]
          | directiveDef => simp [applyDef, hk, hn]
          | undefKind => simp [applyDef, hk, hn]
      by_cases hn : d.name = n
      · have : (d :: rest).filter (fun d => d.name = n)
            = d :: rest.filter (fun d => d.name = n) := by
          simp [List.filter, hn]
        rw [extendSchemaModel, List.foldl_cons, ← extendSchemaModel, ih, hstep, this]
        simp [nameBinding, hn]
      · have : (d :: rest).filter (fun d => d.name = n)
            = rest.filter (fun d => d.name = n) := by
          simp [List.filter, hn]
        rw [extendSchemaModel, List.foldl_cons, ← extendSchemaModel, ih, hstep, this]
        simp [hn]

theorem nameBinding_isSome (b : Option SType) (l : List Definition)
    (h : b.isSome) : (nameBinding b l).isSome := by
  induction l generalizing b with
  | nil => exact h
  | cons d rest ih =>
      rw [nameBinding, List.foldl_cons, ← nameBinding]
      apply ih
      cases hk : d.kind with
      | typeDef k => simp [nameStep, hk]
      | typeExt k =>
          cases hb : b with
          | none => rw [hb] at h; simp at h
          | some t => simp [nameStep, hk, hb]
      | directiveDef => simpa [nameStep, hk]
      | undefKind => simpa [nameStep, hk]

theorem isSome_lookupA_extend (s : Schema) (defs : List Definition) (n : String)
    (h : (lookupA s.types n).isSome) :
    (lookupA (extendSchemaModel s defs).types n).isSome := by
  rw [lookupA_extendSchemaModel]
  exact nameBinding_isSome _ _ h

theorem except_map_ok {E A B : Type} (f : A → B) (x : Except E A) (b : B)
    (h : x.map f = .ok b) : ∃ a, x = .ok a ∧ b = f a := by
  cases x with
  | error e => simp [Except.map] at h
  | ok a =>
      simp [Except.map] at h
      exact ⟨a, rfl, h.symm⟩

theorem setQueryStub_present (s : Schema) :
    (lookupA (setQueryStub s).types "Query").isSome := by
  simp [setQueryStub, lookupA_upsert]

theorem v1_addEntities_preserves (s : Schema) (n : String)
    (h : (lookupA s.types n).isSome) :
    (lookupA (V1.addEntitiesResolver s).types n).isSome := by
  dsimp only [V1.addEntitiesResolver]
  split
  · exact h
  · split
    · exact h
    · exact isSome_lookupA_extend _ _ _ h

theorem v1_addService_preserves (s : Schema) (n : String)
    (h : (lookupA s.types n).isSome) :
    (lookupA (V1.addServiceResolver s).types n).isSome := by
  dsimp only [V1.addServiceResolver, V1.serviceExtended]
  split
  · exact h
  · exact isSome_lookupA_extend _ _ _ h

theorem v1_extend_query_root {E : Type} (validate : List Definition → Schema → List E)
    (orig : Schema) (doc : List Definition) (g : Bool) (s : Schema)
    (h : V1.extendFederationSchema validate orig doc g = .ok s) :
    s.queryRoot = some "Query" ∧ (lookupA s.types "Query").isSome := by
  unfold V1.extendFederationSchema at h
  rcases hve : V1.validationErrors validate orig doc with _ | ⟨e, _ | ⟨e2, rest⟩⟩ <;>
    rw [hve] at h
  · dsimp only at h
    simp only [Except.ok.injEq] at h
    subst h
    set s2 := extendSchemaModel (V1.preValidationSchema orig doc) doc with hs2
    have h3 : (lookupA (if (lookupA s2.types "Query").isSome then s2
        else setQueryStub s2).types "Query").isSome := by
      split
      · assumption
      · exact setQueryStub_present _
    have h4 : (lookupA (if g then (if (lookupA s2.types "Query").isSome then s2
        else setQueryStub s2)
        else V1.addServiceResolver (V1.addEntitiesResolver
          (if (lookupA s2.types "Query").isSome then s2
            else setQueryStub s2))).types "Query").isSome := by
      split
      · exact h3
      · exact v1_addService_preserves _ _ (v1_addEntities_preserves _ _ h3)
    constructor
    · simp only [rootIfPresent, h4]
      simp
    · simpa using h4
  · exact absurd h (by simp)
  · exact absurd h (by simp)

theorem v2_addEntities_preserves (s : Schema) (n : String)
    (h : (lookupA s.types n).isSome) :
    (lookupA (V2.addEntitiesResolver s).types n).isSome := by
  dsimp only [V2.addEntitiesResolver]
  split
  · exact h
  · exact isSome_lookupA_extend _ _ _ h

theorem v2_extend_query_root_service {E : Type}
    (validate : List Definition → Schema → List E)
    (orig : Schema) (doc : List Definition) (s : Schema)
    (h : V2.extendFederationSchema validate orig doc false = .ok s) :
    (lookupA s.types "Query").isSome := by
  unfold V2.extendFederationSchema at h
  rcases hve : V2.validationErrors validate orig doc false with _ | ⟨e, _ | ⟨e2, rest⟩⟩ <;>
    rw [hve] at h
  · dsimp only at h
    simp only [Bool.false_eq_true, if_false, Except.ok.injEq] at h
    subst h
    set s3 := extendSchemaModel (V2.preValidationSchema orig doc false)
      (V2.getStubTypes doc false).extensions with hs3
    have h4 : (lookupA (if (lookupA s3.types "Query").isSome then s3
        else setQueryStub s3).types "Query").isSome := by
      split
      · assumption
      · exact setQueryStub_present _
    exact v2_addEntities_preserves _ _ h4
  · exact absurd h (by simp)
  · exact absurd h (by simp)

/-- C1 (corrected): in both modes of the first implementation the schema
returned by `buildFederationSchema` has a non-null `Query` root (an empty
`Query` object type is synthesized after the merge when none exists).
The second implementation performs that synthesis only in service mode,
so its gateway mode can return a schema with no `Query` root; and its
service mode never returns a schema at all, because its base federation
document carries an `extend type Query` with no `Query` definition in
scope, so the un-validated base `extendSchema` call always fails the
SDL-extension check. -/
theorem c1_query_root_amended {E : Type} :
    (∀ (validate : List Definition → Schema → List E) (docDefs : List Definition)
       (isGateway : Bool) (s : Schema),
       V1.buildFederationSchema validate docDefs isGateway = .ok s →
       s.queryRoot = some "Query" ∧ (lookupA s.types "Query").isSome)
  ∧ (∀ (validate : List Definition → Schema → List E) (docDefs : List Definition),
       V2.buildFederationSchema validate docDefs false = .error (.sdl "Query")) := by
  constructor
  · intro validate docDefs isGateway s h
    unfold V1.buildFederationSchema at h
    dsimp only at h
    split at h
    · exact absurd h (by simp)
    split at h
    · exact absurd h (by simp)
    rename_i s' heq
    simp only [Except.ok.injEq] at h
    subst h
    exact v1_extend_query_root validate _ docDefs isGateway s' heq
  · intro validate docDefs
    rfl

/-- C1 witness: composing the empty document in gateway mode with the first
implementation yields a schema whose query root is the synthesized
`Query`. -/
theorem c1_witness :
    V1.buildFederationSchema noErrValidate [] true = .ok c1wSchema
      ∧ c1wSchema.queryRoot = some "Query" :=
  ⟨rfl, ((@c1_query_root_amended Unit).1 noErrValidate [] true c1wSchema rfl).1⟩

/-- C1 counterexample: the second implementation in gateway mode, on a
document declaring only a `User` type, returns a schema whose query root
is null, against the claim that every mode always yields a non-null
`Query` root. -/
theorem c1_counterexample :
    (V2.buildFederationSchema noErrValidate userOnlyDoc true).map Schema.queryRoot
      = .ok none := by
  rfl

/-- C2 (confirmed): in both implementations, when composition validation
reports exactly one error, `extendFederationSchema` raises that error
itself; when it reports two or more, it raises exactly one aggregate
error whose payload is the full ordered error list; when it reports none,
composition proceeds without raising. -/
theorem c2_error_policy {E : Type} (validate : List Definition → Schema → List E)
    (originalSchema : Schema) (docDefs : List Definition) (isGateway : Bool) :
    (∀ e, V1.validationErrors validate originalSchema docDefs = [e] →
       V1.extendFederationSchema validate originalSchema docDefs isGateway
         = .error (.single e))
  ∧ (∀ e1 e2 rest, V1.validationErrors validate originalSchema docDefs
         = e1 :: e2 :: rest →
       V1.extendFederationSchema validate originalSchema docDefs isGateway
         = .error (.aggregate (e1 :: e2 :: rest)))
  ∧ (V1.validationErrors validate originalSchema docDefs = [] →
       ∃ s, V1.extendFederationSchema validate originalSchema docDefs isGateway = .ok s)
  ∧ (∀ e, V2.validationErrors validate originalSchema docDefs isGateway = [e] →
       V2.extendFederationSchema validate originalSchema docDefs isGateway
         = .error (.single e))
  ∧ (∀ e1 e2 rest, V2.validationErrors validate originalSchema docDefs isGateway
         = e1 :: e2 :: rest →
       V2.extendFederationSchema validate originalSchema docDefs isGateway
         = .error (.aggregate (e1 :: e2 :: rest)))
  ∧ (V2.validationErrors validate originalSchema docDefs isGateway = [] →
       ∃ s, V2.extendFederationSchema validate originalSchema docDefs isGateway
         = .ok s) := by
  refine ⟨?_, ?_, ?_, ?_, ?_, ?_⟩
  · intro e h
    unfold V1.extendFederationSchema
    rw [h]
  · intro e1 e2 rest h
    unfold V1.extendFederationSchema
    rw [h]
  · intro h
    unfold V1.extendFederationSchema
    rw [h]
    exact ⟨_, rfl⟩
  · intro e h
    unfold V2.extendFederationSchema
    rw [h]
  · intro e1 e2 rest h
    unfold V2.extendFederationSchema
    rw [h]
  · intro h
    unfold V2.extendFederationSchema
    rw [h]
    cases isGateway
    · exact ⟨_, rfl⟩
    · exact ⟨_, rfl⟩

/-- C2 witness: a validator reporting the single error `7` makes the second
implementation raise exactly that error. -/
theorem c2_witness :
    V2.extendFederationSchema (fun _ _ => ([7] : List Nat)) emptySchema [] true
      = .error (.single 7) :=
  (c2_error_policy (fun _ _ => ([7] : List Nat)) emptySchema [] true).2.2.2.1 7 rfl

theorem mem_upsert {α : Type} (m : List (String × α)) (k : String) (v : α)
    (p : String × α) (h : p ∈ upsert m k v) : p = (k, v) ∨ p ∈ m := by
  induction m with
  | nil => simpa [upsert] using h
  | cons q rest ih =>
      obtain ⟨k0, w⟩ := q
      rw [upsert] at h
      split_ifs at h with h0
      · rcases List.mem_cons.mp h with h | h
        · left; rw [h, h0]
        · right; exact List.mem_cons_of_mem _ h
      · rcases List.mem_cons.mp h with h | h
        · right; rw [h]; exact List.mem_cons_self _ _
        · rcases ih h with h2 | h2
          · left; exact h2
          · right; exact List.mem_cons_of_mem _ h2

theorem v2_processDef_extsMap (g : Bool) (st : PartitionState) (d : Definition) :
    (V2.processDef g st d).extensionsMap = st.extensionsMap
  ∨ (V2.processDef g st d).extensionsMap
      = upsert st.extensionsMap d.name ⟨stubKind d, d.name⟩ := by
  dsimp only [V2.processDef]
  split
  · left; rfl
  · split
    · right
      unfold stubKind
      rfl
    · split
      · left; rfl
      · left; rfl

theorem v2_foldl_extsMap_names (g : Bool) (defs : List Definition)
    (st : PartitionState)
    (hst : ∀ p, p ∈ st.extensionsMap → (p.2 : StubRec).name = p.1) :
    ∀ p, p ∈ (defs.foldl (V2.processDef g) st).extensionsMap → p.2.name = p.1 := by
  induction defs generalizing st with
  | nil => exact hst
  | cons d rest ih =>
      rw [List.foldl_cons]
      apply ih
      intro p hp
      rcases v2_processDef_extsMap g st d with he | he
      · rw [he] at hp; exact hst p hp
      · rw [he] at hp
        rcases mem_upsert _ _ _ _ hp with h | h
        · rw [h]
        · exact hst p h

/-- C3 (corrected): the second implementation's `getStubTypes` (the one its
`extendFederationSchema` drives the merge with) never emits a stub named
`Query`, `Mutation` or `Subscription`, in either mode; the first
implementation's `getStubTypes` (left uncalled by its own
`extendFederationSchema`) has no root-name filter, so there a root type
appearing only as an extension does produce a stub. -/
theorem c3_no_root_stub_amended (defs : List Definition) (isGateway : Bool)
    (r : StubRec) (hr : r ∈ (V2.getStubTypes defs isGateway).typeStubs) :
    ¬ (r.name = "Query" ∨ r.name = "Mutation" ∨ r.name = "Subscription") := by
  have hnam := v2_foldl_extsMap_names isGateway defs initPartition
    (by intro p hp; simp [initPartition] at hp)
  dsimp only [V2.getStubTypes] at hr
  obtain ⟨p, hp, hpr⟩ := List.mem_map.mp hr
  have hmem := (List.mem_filter.mp hp).1
  have hcond := of_decide_eq_true ((List.mem_filter.mp hp).2)
  have hname := hnam p hmem
  intro habs
  apply hcond.2
  have hp1 : p.1 = "Query" ∨ p.1 = "Mutation" ∨ p.1 = "Subscription" := by
    rw [← hname, hpr]
    exact habs
  rcases hp1 with h | h | h <;> simp [rootNames, h]

/-- C3 witness: a non-root type declared only by extension syntax does get
a stub from the second implementation, and that stub is not named after a
root. -/
theorem c3_witness :
    (⟨.typeDef .object, "Product"⟩ : StubRec) ∈ (V2.getStubTypes c3Doc false).typeStubs
  ∧ ¬ ((⟨.typeDef .object, "Product"⟩ : StubRec).name = "Query"
        ∨ (⟨.typeDef .object, "Product"⟩ : StubRec).name = "Mutation"
        ∨ (⟨.typeDef .object, "Product"⟩ : StubRec).name = "Subscription") :=
  ⟨by decide, c3_no_root_stub_amended c3Doc false _ (by decide)⟩

/-- C3 counterexample: the first implementation's `getStubTypes`, given a
document whose `Query` appears only as an extension, emits a stub named
`Query` (here in service mode, so the claim fails in that mode already). -/
theorem c3_counterexample :
    (V1.getStubTypes [⟨.typeExt .object, "Query", [⟨"hello", []⟩], []⟩] false).typeStubs
      = [⟨.typeDef .object, "Query"⟩] := by
  rfl

theorem v2_processDef_defCase (g : Bool) (st : PartitionState) (d : Definition)
    (hA : isTypeDefinitionNode d = true ∧ ¬ hasExtendsDirective d = true) :
    V2.processDef g st d
      = { st with definitionsMap := upsert st.definitionsMap d.name d } := by
  dsimp only [V2.processDef]
  rw [if_pos hA]

theorem v2_processDef_extCase (g : Bool) (st : PartitionState) (d : Definition)
    (hA : ¬ (isTypeDefinitionNode d = true ∧ ¬ hasExtendsDirective d = true))
    (hB : isTypeExtensionNode d = true
        ∨ (isTypeDefinitionNode d = true ∧ hasExtendsDirective d = true)) :
    V2.processDef g st d = { st with
      extensionsMap := upsert st.extensionsMap d.name ⟨stubKind d, d.name⟩,
      extensions := st.extensions ++ [transformExt g d] } := by
  dsimp only [V2.processDef]
  rw [if_neg hA, if_pos hB]
  unfold stubKind transformExt
  rfl

theorem v2_processDef_dirCase (g : Bool) (st : PartitionState) (d : Definition)
    (hA : ¬ (isTypeDefinitionNode d = true ∧ ¬ hasExtendsDirective d = true))
    (hB : ¬ (isTypeExtensionNode d = true
        ∨ (isTypeDefinitionNode d = true ∧ hasExtendsDirective d = true)))
    (hC : d.kind = .directiveDef) :
    V2.processDef g st d
      = { st with directiveDefinitions := st.directiveDefinitions ++ [d] } := by
  dsimp only [V2.processDef]
  rw [if_neg hA, if_neg hB, if_pos hC]

theorem v2_processDef_skipCase (g : Bool) (st : PartitionState) (d : Definition)
    (hA : ¬ (isTypeDefinitionNode d = true ∧ ¬ hasExtendsDirective d = true))
    (hB : ¬ (isTypeExtensionNode d = true
        ∨ (isTypeDefinitionNode d = true ∧ hasExtendsDirective d = true)))
    (hC : ¬ d.kind = .directiveDef) :
    V2.processDef g st d = st := by
  dsimp only [V2.processDef]
  rw [if_neg hA, if_neg hB, if_neg hC]

theorem transformExt_gateway (d : Definition) :
    transformExt true d = removeExternalFields (transformExt false d) := by
  simp [transformExt]

theorem transformExt_false_parts (d : Definition) :
    (transformExt false d).fields = d.fields ∧ (transformExt false d).name = d.name := by
  unfold transformExt
  split <;> simp [removeExternalFields]

theorem v2_processDef_rel (d : Definition) (stt stf : PartitionState)
    (h1 : stt.definitionsMap = stf.definitionsMap)
    (h2 : stt.extensionsMap = stf.extensionsMap)
    (h3 : stt.directiveDefinitions = stf.directiveDefinitions)
    (h4 : stt.extensions = stf.extensions.map removeExternalFields) :
    (V2.processDef true stt d).definitionsMap = (V2.processDef false stf d).definitionsMap
  ∧ (V2.processDef true stt d).extensionsMap = (V2.processDef false stf d).extensionsMap
  ∧ (V2.processDef true stt d).directiveDefinitions
      = (V2.processDef false stf d).directiveDefinitions
  ∧ (V2.processDef true stt d).extensions
      = ((V2.processDef false stf d).extensions).map removeExternalFields := by
  by_cases hA : (isTypeDefinitionNode d = true ∧ ¬ hasExtendsDirective d = true)
  · rw [v2_processDef_defCase true stt d hA, v2_processDef_defCase false stf d hA]
    exact ⟨by simp [h1], h2, h3, h4⟩
  · by_cases hB : (isTypeExtensionNode d = true
        ∨ (isTypeDefinitionNode d = true ∧ hasExtendsDirective d = true))
    · rw [v2_processDef_extCase true stt d hA hB, v2_processDef_extCase false stf d hA hB]
      refine ⟨h1, by simp [h2], h3, ?_⟩
      simp [h4, transformExt_gateway, List.map_append]
    · by_cases hC : d.kind = .directiveDef
      · rw [v2_processDef_dirCase true stt d hA hB hC, v2_processDef_dirCase false stf d hA hB hC]
        exact ⟨h1, h2, by simp [h3], h4⟩
      · rw [v2_processDef_skipCase true stt d hA hB hC, v2_processDef_skipCase false stf d hA hB hC]
        exact ⟨h1, h2, h3, h4⟩

theorem v2_fold_gateway_rel (defs : List Definition) (stt stf : PartitionState)
    (h1 : stt.definitionsMap = stf.definitionsMap)
    (h2 : stt.extensionsMap = stf.extensionsMap)
    (h3 : stt.directiveDefinitions = stf.directiveDefinitions)
    (h4 : stt.extensions = stf.extensions.map removeExternalFields) :
    (defs.foldl (V2.processDef true) stt).definitionsMap
        = (defs.foldl (V2.processDef false) stf).definitionsMap
  ∧ (defs.foldl (V2.processDef true) stt).extensionsMap
        = (defs.foldl (V2.processDef false) stf).extensionsMap
  ∧ (defs.foldl (V2.processDef true) stt).directiveDefinitions
        = (defs.foldl (V2.processDef false) stf).directiveDefinitions
  ∧ (defs.foldl (V2.processDef true) stt).extensions
        = ((defs.foldl (V2.processDef false) stf).extensions).map removeExternalFields := by
  induction defs generalizing stt stf with
  | nil => exact ⟨h1, h2, h3, h4⟩
  | cons d rest ih =>
      rw [List.foldl_cons, List.foldl_cons]
      obtain ⟨g1, g2, g3, g4⟩ := v2_processDef_rel d stt stf h1 h2 h3 h4
      exact ih _ _ g1 g2 g3 g4

theorem v2_processDef_extensions (g : Bool) (st : PartitionState) (d : Definition) :
    (V2.processDef g st d).extensions = st.extensions
  ∨ (V2.processDef g st d).extensions = st.extensions ++ [transformExt g d] := by
  dsimp only [V2.processDef]
  split
  · left; rfl
  · split
    · right
      unfold transformExt
      rfl
    · split
      · left; rfl
      · left; rfl

theorem v2_extensions_origin (g : Bool) (defs : List Definition) (st : PartitionState)
    (d : Definition)
    (hd : d ∈ (defs.foldl (V2.processDef g) st).extensions) :
    d ∈ st.extensions ∨ ∃ d0, d0 ∈ defs ∧ d = transformExt g d0 := by
  induction defs generalizing st with
  | nil => exact Or.inl hd
  | cons d1 rest ih =>
      rw [List.foldl_cons] at hd
      rcases ih _ hd with hin | ⟨d0, hd0, he⟩
      · rcases v2_processDef_extensions g st d1 with he | he
        · rw [he] at hin; exact Or.inl hin
        · rw [he] at hin
          rcases List.mem_append.mp hin with hin | hin
          · exact Or.inl hin
          · rcases List.mem_singleton.mp hin with rfl
            exact Or.inr ⟨d1, List.mem_cons_self _ _, rfl⟩
      · exact Or.inr ⟨d0, List.mem_cons_of_mem _ hd0, he⟩

/-- C8 (confirmed): in gateway mode `getStubTypes` collects every extension
declaration with its `external` fields removed and everything else kept
(the gateway extension list is exactly the `removeExternalFields` image
of the service-mode one); `removeExternalFields` keeps all and only the
fields without an `external` directive and changes nothing else of the
declaration; and in service mode the collected extensions carry the
fields of the source declarations unchanged. -/
theorem c8_external_field_removal :
    (∀ defs, (V2.getStubTypes defs true).extensions
        = ((V2.getStubTypes defs false).extensions).map removeExternalFields)
  ∧ (∀ d, (removeExternalFields d).fields
        = d.fields.filter (fun f => ¬ f.directives.any (· = "external"))
      ∧ (removeExternalFields d).name = d.name
      ∧ (removeExternalFields d).kind = d.kind
      ∧ ∀ f, f ∈ d.fields → f.directives.any (· = "external") = false →
          f ∈ (removeExternalFields d).fields)
  ∧ (∀ defs d, d ∈ (V2.getStubTypes defs false).extensions →
      ∃ d0, d0 ∈ defs ∧ d.fields = d0.fields) := by
  refine ⟨?_, ?_, ?_⟩
  · intro defs
    have h := v2_fold_gateway_rel defs initPartition initPartition rfl rfl rfl (by rfl)
    dsimp only [V2.getStubTypes]
    exact h.2.2.2
  · intro d
    refine ⟨rfl, rfl, rfl, ?_⟩
    intro f hf hext
    simp only [removeExternalFields]
    rw [List.mem_filter]
    exact ⟨hf, by simp [hext]⟩
  · intro defs d hd
    dsimp only [V2.getStubTypes] at hd
    rcases v2_extensions_origin false defs initPartition d hd with hin | ⟨d0, hd0, rfl⟩
    · simp [initPartition] at hin
    · exact ⟨d0, hd0, (transformExt_false_parts d0).1⟩

/-- C8 witness: on a document whose one extension has an `external` field
next to a plain field, the gateway extension list is the external-free
image of the service one, and the service extension keeps the source
fields. -/
theorem c8_witness :
    (V2.getStubTypes c8Doc true).extensions
      = ((V2.getStubTypes c8Doc false).extensions).map removeExternalFields
  ∧ (∃ d0, d0 ∈ c8Doc
      ∧ (⟨.typeExt .object, "Product", [⟨"id", []⟩, ⟨"secret", ["external"]⟩], []⟩
          : Definition).fields = d0.fields) :=
  ⟨c8_external_field_removal.1 c8Doc,
   c8_external_field_removal.2.2 c8Doc _ (by decide)⟩

theorem mapExcept_ok_parts {α β ε : Type} (f : α → Except ε β) (xs : List α)
    (ys : List β) (h : mapExcept f xs = .ok ys) :
    ys.length = xs.length
  ∧ ∀ i (da : α) (db : β), i < xs.length → f (xs.getD i da) = .ok (ys.getD i db) := by
  induction xs generalizing ys with
  | nil =>
      simp [mapExcept] at h
      subst h
      exact ⟨rfl, by intro i da db hi; simp at hi⟩
  | cons a rest ih =>
      rw [mapExcept] at h
      cases hfa : f a with
      | error e => rw [hfa] at h; simp at h
      | ok b =>
          rw [hfa] at h
          obtain ⟨ys0, hy0, hys⟩ := except_map_ok _ _ _ h
          obtain ⟨hl, hp⟩ := ih ys0 hy0
          subst hys
          refine ⟨by simp [hl], ?_⟩
          intro i da db hi
          cases i with
          | zero => simpa using hfa
          | succ n =>
              simp only [List.getD_cons_succ]
              exact hp n da db (by simpa using hi)

theorem mapExcept_error_mid {α β ε : Type} (f : α → Except ε β) (pre : List α)
    (r : α) (post : List α) (e : ε)
    (hpre : ∀ p, p ∈ pre → (f p).isOk = true) (hr : f r = .error e) :
    mapExcept f (pre ++ r :: post) = .error e := by
  induction pre with
  | nil => simp [mapExcept, hr]
  | cons a rest ih =>
      have ha : (f a).isOk = true := hpre a (List.mem_cons_self _ _)
      cases hfa : f a with
      | error e2 => rw [hfa] at ha; simp [Except.isOk, Except.toBool] at ha
      | ok b =>
          rw [List.cons_append, mapExcept, hfa,
            ih (fun p hp => hpre p (List.mem_cons_of_mem _ hp))]
          rfl

/-- C5 (confirmed): whenever the synthesized `_entities` resolver returns
an output array, it has exactly the length of the `representations` input
and the element at each position is the resolution of the representation
at that same position (covering empty, singleton and longer inputs, and
inputs mixing immediate and deferred resolver results). -/
theorem c5_positional_correspondence (tm : List (String × TKind))
    (resolvers : String → Option (JSValue → JSValue)) (reps out : List JSValue)
    (h : entitiesResolve tm resolvers reps = .ok out) :
    out.length = reps.length
  ∧ ∀ i, i < reps.length →
      resolveRepresentation tm resolvers (reps.getD i .vNull)
        = .ok (out.getD i .vNull) := by
  obtain ⟨hl, hp⟩ := mapExcept_ok_parts _ reps out h
  exact ⟨hl, fun i hi => hp i .vNull .vNull hi⟩

/-- C5 witness: on three representations whose resolvers return an
immediate value, a deferred value, and the default (the representation
itself), the output has length three and position 1 carries the deferred
resolution of representation 1. -/
theorem c5_witness :
    entitiesResolve entTm c5Resolvers c5Reps = .ok c5wOut
  ∧ c5wOut.length = c5Reps.length
  ∧ resolveRepresentation entTm c5Resolvers (c5Reps.getD 1 .vNull)
      = .ok (c5wOut.getD 1 .vNull) :=
  ⟨rfl, (c5_positional_correspondence entTm c5Resolvers c5Reps c5wOut rfl).1,
   (c5_positional_correspondence entTm c5Resolvers c5Reps c5wOut rfl).2 1 (by decide)⟩

theorem resolveRepresentation_typeErr (tm : List (String × TKind))
    (resolvers : String → Option (JSValue → JSValue)) (r : JSValue) (tn : String)
    (h : representationTypeError tm r = some tn) :
    resolveRepresentation tm resolvers r = .error (.unknownEntity tn) := by
  unfold representationTypeError at h
  unfold resolveRepresentation
  cases hg : getTypename r with
  | error e => rw [hg] at h; simp at h
  | ok tv =>
      rw [hg] at h
      dsimp only at h ⊢
      cases tv with
      | vStr s =>
          dsimp only at h ⊢
          cases hl : lookupA tm s with
          | none => simp_all
          | some k => cases k <;> simp_all
      | vNull => simp_all
      | vUndefined => simp_all
      | vBool b => simp_all
      | vNum n => simp_all
      | vObj props => simp_all
      | vProm props x => simp_all
      | vPromErr props e => simp_all

/-- C4 (corrected): when a representation names a type that is absent from
the schema or not an object type, the `_entities` resolver call raises
the unknown-entity-type error of the first such representation, naming
the offending type; the error aborts the whole `representations.map`, so
the sibling representations of the same call are not resolved and no
per-element results are returned. -/
theorem c4_unknown_type_amended (tm : List (String × TKind))
    (resolvers : String → Option (JSValue → JSValue))
    (pre : List JSValue) (r : JSValue) (post : List JSValue) (tn : String)
    (hpre : ∀ p, p ∈ pre → (resolveRepresentation tm resolvers p).isOk = true)
    (hbad : representationTypeError tm r = some tn) :
    entitiesResolve tm resolvers (pre ++ r :: post) = .error (.unknownEntity tn) :=
  mapExcept_error_mid _ pre r post _ hpre
    (resolveRepresentation_typeErr tm resolvers r tn hbad)

/-- C4 witness: a representation naming the unknown type `Nope` after one
resolvable representation makes the whole resolver call raise the
unknown-entity error naming `Nope`. -/
theorem c4_witness :
    entitiesResolve c4Tm noResolvers ([mkRep "User"] ++ mkRep "Nope" :: [mkRep "User"])
      = .error (.unknownEntity "Nope") :=
  c4_unknown_type_amended c4Tm noResolvers [mkRep "User"] (mkRep "Nope")
    [mkRep "User"] "Nope" (by decide) (by decide)

/-- C4 counterexample: with representations `[User, Nope, User]`, the
resolver call returns a single thrown error and no output array, although
the sibling representation at position 2 resolves successfully on its
own; the claim that the siblings of the failing element still complete
within the same call is false, because the throw inside
`representations.map` aborts the whole map. -/
theorem c4_counterexample :
    entitiesResolve c4Tm noResolvers c4Reps = .error (.unknownEntity "Nope")
  ∧ (resolveRepresentation c4Tm noResolvers (c4Reps.getD 2 .vNull)).isOk = true :=
  ⟨rfl, rfl⟩

/-- C9 (confirmed): the deferred-value check asks `result && 'then' in
result && ...`; when a reference resolver returns a truthy primitive, the
membership test `'then' in result` raises a TypeError, so that element's
resolution fails instead of yielding the primitive. -/
theorem c9_primitive_result_throws (tm : List (String × TKind))
    (resolvers : String → Option (JSValue → JSValue)) (reference : JSValue)
    (s : String) (prim : JSValue)
    (hty : getTypename reference = .ok (.vStr s))
    (hobj : lookupA tm s = some .object)
    (hres : resolvers s = some (fun _ => prim))
    (hprim : isPrimitiveJS prim = true)
    (htru : truthy prim = true) :
    resolveRepresentation tm resolvers reference
      = .error (.typeError "Cannot use in operator to search in a primitive") := by
  unfold resolveRepresentation
  rw [hty]
  dsimp only
  rw [hobj]
  dsimp only
  rw [hres]
  dsimp only
  cases prim <;> simp_all [truthy, jsIn, isPrimitiveJS]

/-- C9 witness: a `User` resolver returning the number 5 makes that
element's resolution raise the in-operator TypeError. -/
theorem c9_witness :
    resolveRepresentation c4Tm
      (fun s => if s = "User" then some (fun _ => .vNum 5) else none) (mkRep "User")
      = .error (.typeError "Cannot use in operator to search in a primitive") :=
  c9_primitive_result_throws c4Tm
    (fun s => if s = "User" then some (fun _ => .vNum 5) else none)
    (mkRep "User") "User" (.vNum 5) rfl rfl rfl rfl rfl

theorem defineInProps_absent : ∀ (props : PropList) (k : String) (v : JSValue),
    hasOwn props k = false → defineInProps props k v = .ok (appendProp props k v)
  | .nil, _, _, _ => rfl
  | .cons k0 v0 w e c rest, k, v, h => by
      rw [hasOwn] at h
      split_ifs at h with h0
      · rw [defineInProps, if_neg h0, defineInProps_absent rest k v h, appendProp]
        rfl

theorem getOwn_appendProp : ∀ (props : PropList) (k : String) (v : JSValue),
    hasOwn props k = false →
    getOwn (appendProp props k v) k = v
  ∧ ownAttrs (appendProp props k v) k = some (false, false, false)
  | .nil, k, v, _ => by simp [appendProp, getOwn, ownAttrs]
  | .cons k0 v0 w e c rest, k, v, h => by
      rw [hasOwn] at h
      split_ifs at h with h0
      · rw [appendProp]
        constructor
        · rw [getOwn, if_neg h0]
          exact (getOwn_appendProp rest k v h).1
        · rw [ownAttrs, if_neg h0]
          exact (getOwn_appendProp rest k v h).2

theorem defineInProps_config : ∀ (props : PropList) (k : String) (v : JSValue)
    (w e : Bool), ownAttrs props k = some (w, e, true) →
    ∃ props2, defineInProps props k v = .ok props2
      ∧ getOwn props2 k = v ∧ ownAttrs props2 k = some (w, e, true)
  | .nil, k, v, w, e, h => by simp [ownAttrs] at h
  | .cons k0 v0 w0 e0 c0 rest, k, v, w, e, h => by
      by_cases h0 : k0 = k
      · subst h0
        rw [ownAttrs, if_pos rfl] at h
        simp only [Option.some.injEq, Prod.mk.injEq] at h
        obtain ⟨h1, h2, h3⟩ := h
        subst h1
        subst h2
        subst h3
        refine ⟨.cons k0 v w0 e0 true rest, ?_, ?_, ?_⟩
        · simp [defineInProps]
        · simp [getOwn]
        · simp [ownAttrs]
      · rw [ownAttrs, if_neg h0] at h
        obtain ⟨r2, hr2, hg, ha⟩ := defineInProps_config rest k v w e h
        refine ⟨.cons k0 v0 w0 e0 c0 r2, ?_, ?_, ?_⟩
        · rw [defineInProps, if_neg h0, hr2]
          rfl
        · rw [getOwn, if_neg h0]
          exact hg
        · rw [ownAttrs, if_neg h0]
          exact ha

/-- C10 (corrected): `addTypeNameToResult` returns the value it was given;
on a plain object with no own `__typename`, the property is created with
value the declared type name and with the writable, enumerable and
configurable attributes all false; but on an object that already has a
configurable own `__typename` (the shape every representation fed back by
the default reference resolver has), `Object.defineProperty` only
replaces the value and retains the existing attributes, so the property
does not become non-enumerable, non-writable, non-configurable; null and
primitive values are returned unchanged. -/
theorem c10_typename_tag_amended :
    (∀ props tn, hasOwn props "__typename" = false →
       addTypeNameToResult (.vObj props) tn
           = .ok (.vObj (appendProp props "__typename" (.vStr tn)))
         ∧ getOwn (appendProp props "__typename" (.vStr tn)) "__typename" = .vStr tn
         ∧ ownAttrs (appendProp props "__typename" (.vStr tn)) "__typename"
             = some (false, false, false))
  ∧ (∀ props tn w e, ownAttrs props "__typename" = some (w, e, true) →
       ∃ props2, addTypeNameToResult (.vObj props) tn = .ok (.vObj props2)
         ∧ getOwn props2 "__typename" = .vStr tn
         ∧ ownAttrs props2 "__typename" = some (w, e, true))
  ∧ (∀ v tn, isPrimitiveJS v = true → addTypeNameToResult v tn = .ok v) := by
  refine ⟨?_, ?_, ?_⟩
  · intro props tn h
    refine ⟨?_, (getOwn_appendProp props _ _ h).1, (getOwn_appendProp props _ _ h).2⟩
    rw [addTypeNameToResult, defineInProps_absent props _ _ h]
    rfl
  · intro props tn w e h
    obtain ⟨props2, hd, hg, ha⟩ := defineInProps_config props "__typename" (.vStr tn) w e h
    refine ⟨props2, ?_, hg, ha⟩
    rw [addTypeNameToResult, hd]
    rfl
  · intro v tn h
    cases v <;> simp_all [addTypeNameToResult, isPrimitiveJS]

/-- C10 witness: tagging a fresh empty object creates a `__typename`
property with all attributes false. -/
theorem c10_witness :
    addTypeNameToResult (.vObj .nil) "User"
      = .ok (.vObj (appendProp .nil "__typename" (.vStr "User")))
  ∧ ownAttrs (appendProp .nil "__typename" (.vStr "User")) "__typename"
      = some (false, false, false) :=
  ⟨(c10_typename_tag_amended.1 .nil "User" rfl).1,
   (c10_typename_tag_amended.1 .nil "User" rfl).2.2⟩

/-- C10 counterexample: on a representation object whose `__typename` is an
ordinary writable, enumerable, configurable property (exactly what the
default reference resolver hands back), the returned value's `__typename`
keeps those attributes, against the claim that a non-null object always
gains a non-enumerable, non-writable, non-configurable `__typename`. -/
theorem c10_counterexample :
    objTypenameAttrs (addTypeNameToResult (mkRep "User") "User")
      = some (true, true, true)
  ∧ addTypeNameToResult (mkRep "User") "User" = .ok (mkRep "User") :=
  ⟨rfl, rfl⟩

theorem stripNode_sound (d d2 : Definition) (h : V1.stripNode d = some d2) :
    d2.name = d.name
  ∧ d2.kind = d.kind
  ∧ (d2.kind = .typeDef .scalar → ¬ (d2.name = "_Any" ∨ d2.name = "_FieldSet"))
  ∧ (d2.kind = .typeDef .union → d2.name ≠ "_Entity")
  ∧ (d2.name = "Query" → (d2.kind = .typeDef .object ∨ d2.kind = .typeExt .object) →
       (∀ f, f ∈ d2.fields → ¬ (f.name = "_service" ∨ f.name = "_entities"))
     ∧ d2.fields ≠ []
     ∧ (∀ f, f ∈ d2.fields → f ∈ d.fields)) := by
  obtain ⟨dk, dn, df, dd⟩ := d
  cases dk with
  | directiveDef =>
      simp only [V1.stripNode, Option.some.injEq] at h
      subst h
      refine ⟨rfl, rfl, ?_, ?_, ?_⟩ <;> intro hp
      · simp at hp
      · simp at hp
      · intro hk
        rcases hk with hk | hk <;> simp at hk
  | undefKind =>
      simp only [V1.stripNode, Option.some.injEq] at h
      subst h
      refine ⟨rfl, rfl, ?_, ?_, ?_⟩ <;> intro hp
      · simp at hp
      · simp at hp
      · intro hk
        rcases hk with hk | hk <;> simp at hk
  | typeExt tk =>
      cases tk with
      | object =>
          simp only [V1.stripNode, V1.typeDefinitionVisitor] at h
          by_cases h1 : dn = "Query"
          · rw [if_pos h1] at h
            by_cases h2 : (df.filter
                (fun f => ¬ (f.name = "_service" ∨ f.name = "_entities"))).isEmpty
            · rw [if_pos h2] at h
              exact absurd h (by simp)
            · rw [if_neg h2] at h
              have h4 := Option.some.inj h
              subst h4
              refine ⟨rfl, rfl, ?_, ?_, ?_⟩
              · intro hp; simp at hp
              · intro hp; simp at hp
              · intro _ _
                refine ⟨?_, ?_, ?_⟩
                · intro f hf
                  dsimp only at hf
                  have hf2 := (List.mem_filter.mp hf).2
                  exact of_decide_eq_true hf2
                · intro hnil
                  dsimp only at hnil
                  apply h2
                  rw [hnil]
                  rfl
                · intro f hf
                  dsimp only at hf
                  exact (List.mem_filter.mp hf).1
          · rw [if_neg h1] at h
            by_cases h3 : dn = "_Service"
            · rw [if_pos h3] at h
              exact absurd h (by simp)
            · rw [if_neg h3] at h
              have h4 := Option.some.inj h
              subst h4
              refine ⟨rfl, rfl, ?_, ?_, ?_⟩
              · intro hp; simp at hp
              · intro hp; simp at hp
              · intro hq _
                exact absurd hq h1
      | scalar =>
          simp only [V1.stripNode, Option.some.injEq] at h
          subst h
          refine ⟨rfl, rfl, ?_, ?_, ?_⟩ <;> intro hp
          · simp at hp
          · simp at hp
          · intro hk
            rcases hk with hk | hk <;> simp at hk
      | interface =>
          simp only [V1.stripNode, Option.some.injEq] at h
          subst h
          refine ⟨rfl, rfl, ?_, ?_, ?_⟩ <;> intro hp
          · simp at hp
          · simp at hp
          · intro hk
            rcases hk with hk | hk <;> simp at hk
      | union =>
          simp only [V1.stripNode, Option.some.injEq] at h
          subst h
          refine ⟨rfl, rfl, ?_, ?_, ?_⟩ <;> intro hp
          · simp at hp
          · simp at hp
          · intro hk
            rcases hk with hk | hk <;> simp at hk
      | enum =>
          simp only [V1.stripNode, Option.some.injEq] at h
          subst h
          refine ⟨rfl, rfl, ?_, ?_, ?_⟩ <;> intro hp
          · simp at hp
          · simp at hp
          · intro hk
            rcases hk with hk | hk <;> simp at hk
      | inputObject =>
          simp only [V1.stripNode, Option.some.injEq] at h
          subst h
          refine ⟨rfl, rfl, ?_, ?_, ?_⟩ <;> intro hp
          · simp at hp
          · simp at hp
          · intro hk
            rcases hk with hk | hk <;> simp at hk
  | typeDef tk =>
      cases tk with
      | scalar =>
          simp only [V1.stripNode] at h
          split_ifs at h with h1
          simp only [Option.some.injEq] at h
          subst h
          refine ⟨rfl, rfl, ?_, ?_, ?_⟩
          · intro _; simpa using h1
          · intro hp; simp at hp
          · intro _ hk
            rcases hk with hk | hk <;> simp at hk
      | union =>
          simp only [V1.stripNode] at h
          split_ifs at h with h1
          simp only [Option.some.injEq] at h
          subst h
          refine ⟨rfl, rfl, ?_, ?_, ?_⟩
          · intro hp; simp at hp
          · intro _; exact h1
          · intro _ hk
            rcases hk with hk | hk <;> simp at hk
      | object =>
          simp only [V1.stripNode, V1.typeDefinitionVisitor] at h
          by_cases h1 : dn = "Query"
          · rw [if_pos h1] at h
            by_cases h2 : (df.filter
                (fun f => ¬ (f.name = "_service" ∨ f.name = "_entities"))).isEmpty
            · rw [if_pos h2] at h
              exact absurd h (by simp)
            · rw [if_neg h2] at h
              have h4 := Option.some.inj h
              subst h4
              refine ⟨rfl, rfl, ?_, ?_, ?_⟩
              · intro hp; simp at hp
              · intro hp; simp at hp
              · intro _ _
                refine ⟨?_, ?_, ?_⟩
                · intro f hf
                  dsimp only at hf
                  have hf2 := (List.mem_filter.mp hf).2
                  exact of_decide_eq_true hf2
                · intro hnil
                  dsimp only at hnil
                  apply h2
                  rw [hnil]
                  rfl
                · intro f hf
                  dsimp only at hf
                  exact (List.mem_filter.mp hf).1
          · rw [if_neg h1] at h
            by_cases h3 : dn = "_Service"
            · rw [if_pos h3] at h
              exact absurd h (by simp)
            · rw [if_neg h3] at h
              have h4 := Option.some.inj h
              subst h4
              refine ⟨rfl, rfl, ?_, ?_, ?_⟩
              · intro hp; simp at hp
              · intro hp; simp at hp
              · intro hq _
                exact absurd hq h1
      | interface =>
          simp only [V1.stripNode, Option.some.injEq] at h
          subst h
          refine ⟨rfl, rfl, ?_, ?_, ?_⟩ <;> intro hp
          · simp at hp
          · simp at hp
          · intro hk
            rcases hk with hk | hk <;> simp at hk
      | enum =>
          simp only [V1.stripNode, Option.some.injEq] at h
          subst h
          refine ⟨rfl, rfl, ?_, ?_, ?_⟩ <;> intro hp
          · simp at hp
          · simp at hp
          · intro hk
            rcases hk with hk | hk <;> simp at hk
      | inputObject =>
          simp only [V1.stripNode, Option.some.injEq] at h
          subst h
          refine ⟨rfl, rfl, ?_, ?_, ?_⟩ <;> intro hp
          · simp at hp
          · simp at hp
          · intro hk
            rcases hk with hk | hk <;> simp at hk

/-- C6 (corrected): in the first implementation, the SDL installed by
`addServiceResolver` (the document the `_service` resolver returns,
re-parsed) contains no `_Any` or `_FieldSet` scalar definition, no
`_Entity` union definition and no `_service` or `_entities` field on an
object node named `Query`; and when the pre-strip `Query` carried only
those two fields, no `Query` object node survives at all.  In the second
implementation, `getServiceSDL` does delete the `_service` and
`_entities` fields of `Query`, but a `Query` left with zero fields is
still printed as a field-less type definition instead of being dropped. -/
theorem c6_service_sdl_amended (s : Schema) (out : List Definition)
    (h : (V1.addServiceResolver s).serviceSdl = some out) :
    (∀ d, d ∈ out → d.kind = .typeDef .scalar →
        ¬ (d.name = "_Any" ∨ d.name = "_FieldSet"))
  ∧ (∀ d, d ∈ out → d.kind = .typeDef .union → d.name ≠ "_Entity")
  ∧ (∀ d, d ∈ out → d.name = "Query" →
        (d.kind = .typeDef .object ∨ d.kind = .typeExt .object) →
        ∀ f, f ∈ d.fields → ¬ (f.name = "_service" ∨ f.name = "_entities"))
  ∧ ((∀ d, d ∈ printSchemaModel (V1.serviceExtended s) → d.name = "Query" →
        ∀ f, f ∈ d.fields → f.name = "_service" ∨ f.name = "_entities") →
     ∀ d, d ∈ out → ¬ (d.name = "Query"
        ∧ (d.kind = .typeDef .object ∨ d.kind = .typeExt .object)))
  ∧ (∀ s2 d, d ∈ V2.getServiceSDL s2 → d.name = "Query" →
        ∀ f, f ∈ d.fields → ¬ (f.name = "_service" ∨ f.name = "_entities")) := by
  have hout : out = V1.stripCommonPrimitives (printSchemaModel (V1.serviceExtended s)) := by
    unfold V1.addServiceResolver at h
    simpa using h.symm
  subst hout
  refine ⟨?_, ?_, ?_, ?_, ?_⟩
  · intro d hd hk
    obtain ⟨d0, _, hstrip⟩ := List.mem_filterMap.mp hd
    exact (stripNode_sound d0 d hstrip).2.2.1 hk
  · intro d hd hk
    obtain ⟨d0, _, hstrip⟩ := List.mem_filterMap.mp hd
    exact (stripNode_sound d0 d hstrip).2.2.2.1 hk
  · intro d hd hq hk
    obtain ⟨d0, _, hstrip⟩ := List.mem_filterMap.mp hd
    exact ((stripNode_sound d0 d hstrip).2.2.2.2 hq hk).1
  · intro hpre d hd ⟨hq, hk⟩
    obtain ⟨d0, hd0, hstrip⟩ := List.mem_filterMap.mp hd
    have hs := stripNode_sound d0 d hstrip
    have hq0 : d0.name = "Query" := by rw [← hs.1]; exact hq
    obtain ⟨hnofed, hne, hsub⟩ := hs.2.2.2.2 hq hk
    obtain ⟨f, hf⟩ := List.exists_mem_of_ne_nil _ hne
    exact hnofed f hf (hpre d0 hd0 hq0 f (hsub f hf))
  · intro s2 d hd hq f hf
    unfold V2.getServiceSDL at hd
    obtain ⟨p, hp, hpd⟩ := List.mem_map.mp hd
    obtain ⟨p0, _, hp0⟩ := List.mem_map.mp hp
    by_cases hq0 : p0.1 = "Query"
    · rw [if_pos hq0] at hp0
      subst hp0
      subst hpd
      dsimp only at hf
      have hf2 := (List.mem_filter.mp hf).2
      have := of_decide_eq_true hf2
      intro hc
      rcases hc with hc | hc
      · exact this.1 hc
      · exact this.2 hc
    · rw [if_neg hq0] at hp0
      subst hp0
      subst hpd
      dsimp only at hq
      exact absurd hq hq0

/-- C6 witness: on a composed service schema whose `Query` carries exactly
the `_service` and `_entities` fields, the reflected SDL of the first
implementation contains no `Query` object node at all. -/
theorem c6_witness :
    (V1.addServiceResolver c6sIn).serviceSdl = some c6wOut
  ∧ ∀ d, d ∈ c6wOut → ¬ (d.name = "Query"
      ∧ (d.kind = .typeDef .object ∨ d.kind = .typeExt .object)) :=
  ⟨rfl, (c6_service_sdl_amended c6sIn c6wOut rfl).2.2.2.1 (by decide)⟩

/-- C6 counterexample: composing (with the second implementation, service
mode) a document whose `Query` has exactly the fields `_service` and
`_entities` yields a `_service` SDL that still contains a node named
`Query` (printed field-less), although the pre-strip `Query` carried only
those two fields — against the claim that `Query` is then entirely
absent from the reflected SDL. -/
theorem c6_counterexample :
    hasQueryDef (c6wSchema.serviceSdl.getD []) = true
  ∧ (lookupA c6wSchema.types "Query").map SType.fields
      = some [⟨"_service", []⟩, ⟨"_entities", []⟩] :=
  ⟨rfl, rfl⟩

theorem isTypeExtensionNode_kind (d : Definition) (h : isTypeExtensionNode d = true) :
    ∃ k, d.kind = .typeExt k := by
  unfold isTypeExtensionNode at h
  cases hk : d.kind <;> rw [hk] at h <;> simp_all

theorem isTypeDefinitionNode_kind (d : Definition) (h : isTypeDefinitionNode d = true) :
    ∃ k, d.kind = .typeDef k := by
  unfold isTypeDefinitionNode at h
  cases hk : d.kind <;> rw [hk] at h <;> simp_all

theorem good_notA (d : Definition) (h : goodExtensionDecl d) :
    ¬ (isTypeDefinitionNode d = true ∧ ¬ hasExtendsDirective d = true) := by
  rcases h with ⟨h1, h2⟩ | ⟨h1, h2⟩
  · intro hc
    obtain ⟨k, hk⟩ := isTypeDefinitionNode_kind d hc.1
    obtain ⟨k2, hk2⟩ := isTypeExtensionNode_kind d h1
    rw [hk] at hk2
    exact DefKind.noConfusion hk2
  · intro hc
    exact hc.2 h2

theorem good_B (d : Definition) (h : goodExtensionDecl d) :
    isTypeExtensionNode d = true
  ∨ (isTypeDefinitionNode d = true ∧ hasExtendsDirective d = true) := by
  rcases h with ⟨h1, _⟩ | ⟨h1, h2⟩
  · exact Or.inl h1
  · exact Or.inr ⟨h1, h2⟩

theorem stubKind_good (d : Definition) (h : goodExtensionDecl d) :
    ∃ k, stubKind d = .typeDef k := by
  rcases h with ⟨h1, h2⟩ | ⟨h1, h2⟩
  · obtain ⟨k, hk⟩ := isTypeExtensionNode_kind d h1
    exact ⟨k, by simp [stubKind, h2, hk, extensionKindToDefinitionKind]⟩
  · obtain ⟨k, hk⟩ := isTypeDefinitionNode_kind d h1
    exact ⟨k, by simp [stubKind, h2, hk]⟩

theorem transformExt_kind_good (g : Bool) (d : Definition) (h : goodExtensionDecl d) :
    ∃ k, (transformExt g d).kind = .typeExt k := by
  rcases h with ⟨h1, h2⟩ | ⟨h1, h2⟩
  · obtain ⟨k, hk⟩ := isTypeExtensionNode_kind d h1
    refine ⟨k, ?_⟩
    unfold transformExt
    cases g <;> simp [h2, hk, removeExternalFields]
  · obtain ⟨k, hk⟩ := isTypeDefinitionNode_kind d h1
    refine ⟨k, ?_⟩
    unfold transformExt
    cases g <;> simp [h2, hk, removeExternalFields, definitionKindToExtensionKind]

theorem good_not_directive (d : Definition) (h : goodExtensionDecl d) :
    d.kind ≠ .directiveDef := by
  rcases h with ⟨h1, _⟩ | ⟨h1, _⟩
  · obtain ⟨k, hk⟩ := isTypeExtensionNode_kind d h1
    rw [hk]
    exact fun hc => DefKind.noConfusion hc
  · obtain ⟨k, hk⟩ := isTypeDefinitionNode_kind d h1
    rw [hk]
    exact fun hc => DefKind.noConfusion hc

theorem transformExt_name (g : Bool) (d : Definition) :
    (transformExt g d).name = d.name := by
  unfold transformExt
  cases g <;> split <;> simp [removeExternalFields]

theorem v2_processDef_defsMap_cases (g : Bool) (st : PartitionState) (d : Definition) :
    (V2.processDef g st d).definitionsMap = st.definitionsMap
  ∨ (V2.processDef g st d).definitionsMap = upsert st.definitionsMap d.name d := by
  dsimp only [V2.processDef]
  split
  · right; rfl
  · split
    · left; rfl
    · split
      · left; rfl
      · left; rfl

theorem v2_processDef_dirDefs_cases (g : Bool) (st : PartitionState) (d : Definition) :
    (V2.processDef g st d).directiveDefinitions = st.directiveDefinitions
  ∨ (V2.processDef g st d).directiveDefinitions = st.directiveDefinitions ++ [d] := by
  dsimp only [V2.processDef]
  split
  · left; rfl
  · split
    · left; rfl
    · split
      · right; rfl
      · left; rfl

theorem v2_step_X_nonname (g : Bool) (st : PartitionState) (d : Definition) (X : String)
    (hn : ¬ d.name = X) :
    lookupA (V2.processDef g st d).definitionsMap X = lookupA st.definitionsMap X
  ∧ lookupA (V2.processDef g st d).extensionsMap X = lookupA st.extensionsMap X
  ∧ (V2.processDef g st d).extensions.filter (fun q => q.name = X)
      = st.extensions.filter (fun q => q.name = X)
  ∧ (V2.processDef g st d).directiveDefinitions.filter (fun q => q.name = X)
      = st.directiveDefinitions.filter (fun q => q.name = X) := by
  refine ⟨?_, ?_, ?_, ?_⟩
  · rcases v2_processDef_defsMap_cases g st d with h | h
    · rw [h]
    · rw [h, lookupA_upsert, if_neg hn]
  · rcases v2_processDef_extsMap g st d with h | h
    · rw [h]
    · rw [h, lookupA_upsert, if_neg hn]
  · rcases v2_processDef_extensions g st d with h | h
    · rw [h]
    · rw [h, List.filter_append]
      have h2 : [transformExt g d].filter (fun q => q.name = X) = [] := by
        rw [List.filter_cons, if_neg (by simp [transformExt_name, hn])]
        rfl
      rw [h2, List.append_nil]
  · rcases v2_processDef_dirDefs_cases g st d with h | h
    · rw [h]
    · rw [h, List.filter_append]
      have h2 : [d].filter (fun q => q.name = X) = [] := by
        rw [List.filter_cons, if_neg (by simp [hn])]
        rfl
      rw [h2, List.append_nil]

theorem v2_step_X_name (g : Bool) (st : PartitionState) (d : Definition) (X : String)
    (hn : d.name = X) (hg : goodExtensionDecl d) :
    lookupA (V2.processDef g st d).definitionsMap X = lookupA st.definitionsMap X
  ∧ lookupA (V2.processDef g st d).extensionsMap X = some ⟨stubKind d, X⟩
  ∧ (V2.processDef g st d).extensions.filter (fun q => q.name = X)
      = st.extensions.filter (fun q => q.name = X) ++ [transformExt g d] := by
  have hE := v2_processDef_extCase g st d (good_notA d hg) (good_B d hg)
  rw [hE]
  refine ⟨rfl, ?_, ?_⟩
  · dsimp only
    rw [lookupA_upsert, if_pos hn, hn]
  · dsimp only
    rw [List.filter_append]
    have h2 : [transformExt g d].filter (fun q => q.name = X) = [transformExt g d] := by
      rw [List.filter_cons, if_pos (by simp [transformExt_name, hn])]
      rfl
    rw [h2]

theorem v2_fold_X (g : Bool) (X : String) (defs : List Definition) :
    ∀ (st : PartitionState),
    (∀ d, d ∈ defs → d.name = X → goodExtensionDecl d) →
    lookupA (defs.foldl (V2.processDef g) st).definitionsMap X
        = lookupA st.definitionsMap X
  ∧ (defs.foldl (V2.processDef g) st).extensions.filter (fun q => q.name = X)
        = st.extensions.filter (fun q => q.name = X)
          ++ (defs.filter (fun q => q.name = X)).map (transformExt g)
  ∧ (defs.foldl (V2.processDef g) st).directiveDefinitions.filter (fun q => q.name = X)
        = st.directiveDefinitions.filter (fun q => q.name = X) := by
  induction defs with
  | nil =>
      intro st _
      exact ⟨rfl, by simp, rfl⟩
  | cons d rest ih =>
      intro st hall
      rw [List.foldl_cons]
      have hrest := ih (V2.processDef g st d)
        (fun q hq hq2 => hall q (List.mem_cons_of_mem _ hq) hq2)
      by_cases hn : d.name = X
      · have hstep := v2_step_X_name g st d X hn (hall d (List.mem_cons_self _ _) hn)
        refine ⟨?_, ?_, ?_⟩
        · rw [hrest.1, hstep.1]
        · rw [hrest.2.1, hstep.2.2]
          have h2 : (d :: rest).filter (fun q => q.name = X)
              = d :: rest.filter (fun q => q.name = X) := by
            rw [List.filter_cons, if_pos (by simp [hn])]
          rw [h2, List.map_cons, List.append_assoc]
          rfl
        · have hstep2 := v2_step_X_nonname g st d X
          rw [hrest.2.2]
          have hE := v2_processDef_extCase g st d
            (good_notA d (hall d (List.mem_cons_self _ _) hn))
            (good_B d (hall d (List.mem_cons_self _ _) hn))
          rw [hE]
      · have hstep := v2_step_X_nonname g st d X hn
        refine ⟨?_, ?_, ?_⟩
        · rw [hrest.1, hstep.1]
        · rw [hrest.2.1, hstep.2.2.1]
          have h2 : (d :: rest).filter (fun q => q.name = X)
              = rest.filter (fun q => q.name = X) := by
            rw [List.filter_cons, if_neg (by simp [hn])]
          rw [h2]
        · rw [hrest.2.2, hstep.2.2.2]

theorem v2_fold_X_extsMap (g : Bool) (X : String) (defs : List Definition) :
    ∀ (st : PartitionState),
    (∀ d, d ∈ defs → d.name = X → goodExtensionDecl d) →
    ((∃ k, lookupA st.extensionsMap X = some ⟨.typeDef k, X⟩)
      ∨ (∃ d, d ∈ defs ∧ d.name = X)) →
    ∃ k, lookupA (defs.foldl (V2.processDef g) st).extensionsMap X
        = some ⟨.typeDef k, X⟩ := by
  induction defs with
  | nil =>
      intro st _ hinit
      rcases hinit with h | ⟨d, hd, _⟩
      · exact h
      · simp at hd
  | cons d rest ih =>
      intro st hall hinit
      rw [List.foldl_cons]
      by_cases hn : d.name = X
      · have hg := hall d (List.mem_cons_self _ _) hn
        obtain ⟨k, hk⟩ := stubKind_good d hg
        apply ih _ (fun q hq hq2 => hall q (List.mem_cons_of_mem _ hq) hq2)
        left
        exact ⟨k, by rw [(v2_step_X_name g st d X hn hg).2.1, hk]⟩
      · apply ih _ (fun q hq hq2 => hall q (List.mem_cons_of_mem _ hq) hq2)
        rcases hinit with h | ⟨d2, hd2, hn2⟩
        · left
          obtain ⟨k, hk⟩ := h
          exact ⟨k, by rw [(v2_step_X_nonname g st d X hn).2.1, hk]⟩
        · rcases List.mem_cons.mp hd2 with h3 | h3
          · exact absurd (h3 ▸ hn2) hn
          · right
            exact ⟨d2, h3, hn2⟩

theorem upsert_keys_mem {α : Type} (m : List (String × α)) (k : String) (v : α)
    (a : String) (h : a ∈ (upsert m k v).map Prod.fst) :
    a ∈ m.map Prod.fst ∨ a = k := by
  obtain ⟨p, hp, hpa⟩ := List.mem_map.mp h
  rcases mem_upsert _ _ _ _ hp with h2 | h2
  · right
    rw [← hpa, h2]
  · left
    exact List.mem_map.mpr ⟨p, h2, hpa⟩

theorem upsert_keys_nodup {α : Type} (m : List (String × α)) (k : String) (v : α)
    (h : (m.map Prod.fst).Nodup) : ((upsert m k v).map Prod.fst).Nodup := by
  induction m with
  | nil => simp [upsert]
  | cons p rest ih =>
      obtain ⟨k0, w⟩ := p
      rw [upsert]
      split_ifs with h0
      · simpa using h
      · simp only [List.map_cons, List.nodup_cons] at h ⊢
        refine ⟨?_, ih h.2⟩
        intro hc
        rcases upsert_keys_mem rest k v k0 hc with hc2 | hc2
        · exact h.1 hc2
        · exact h0 hc2

theorem v2_fold_extsMap_nodup (g : Bool) (defs : List Definition) :
    ∀ (st : PartitionState), (st.extensionsMap.map Prod.fst).Nodup →
    ((defs.foldl (V2.processDef g) st).extensionsMap.map Prod.fst).Nodup := by
  induction defs with
  | nil => intro st h; exact h
  | cons d rest ih =>
      intro st h
      rw [List.foldl_cons]
      apply ih
      rcases v2_processDef_extsMap g st d with he | he
      · rw [he]; exact h
      · rw [he]; exact upsert_keys_nodup _ _ _ h

theorem v2_fold_defsMap_names (g : Bool) (defs : List Definition) :
    ∀ (st : PartitionState),
    (∀ p, p ∈ st.definitionsMap → (p.2 : Definition).name = p.1) →
    ∀ p, p ∈ (defs.foldl (V2.processDef g) st).definitionsMap → p.2.name = p.1 := by
  induction defs with
  | nil => intro st h; exact h
  | cons d rest ih =>
      intro st h
      rw [List.foldl_cons]
      apply ih
      intro p hp
      rcases v2_processDef_defsMap_cases g st d with he | he
      · rw [he] at hp
        exact h p hp
      · rw [he] at hp
        rcases mem_upsert _ _ _ _ hp with h2 | h2
        · rw [h2]
        · exact h p h2

theorem assoc_values_filter_none (m : List (String × Definition)) (X : String)
    (hn : ∀ p, p ∈ m → (p.2 : Definition).name = p.1)
    (h : lookupA m X = none) :
    (m.map (·.2)).filter (fun d => d.name = X) = [] := by
  induction m with
  | nil => rfl
  | cons p rest ih =>
      obtain ⟨k, v⟩ := p
      rw [lookupA] at h
      split_ifs at h with h0
      have h2 : v.name = k := hn (k, v) (List.mem_cons_self _ _)
      have hv : ¬ (v.name = X) := by
        intro hc
        exact h0 (h2.symm.trans hc)
      rw [List.map_cons, List.filter_cons, if_neg (by simpa using hv)]
      exact ih (fun q hq => hn q (List.mem_cons_of_mem _ hq)) h

theorem stub_filter_none (m : List (String × StubRec))
    (dm : List (String × Definition)) (X : String)
    (hnm : ∀ p, p ∈ m → (p.2 : StubRec).name = p.1)
    (hX : ¬ X ∈ m.map Prod.fst) :
    ((m.filter (fun p => (lookupA dm p.1).isNone ∧ ¬ p.1 ∈ rootNames)).map (·.2)).filter
        (fun q => q.name = X) = [] := by
  induction m with
  | nil => rfl
  | cons p rest ih =>
      obtain ⟨k, v⟩ := p
      simp only [List.map_cons, List.mem_cons, not_or] at hX
      have hvk : v.name = k := hnm (k, v) (List.mem_cons_self _ _)
      have hvX : ¬ (v.name = X) := by
        intro hc
        exact hX.1 (hc.symm.trans hvk)
      rw [List.filter_cons]
      by_cases hcond : ((lookupA dm k).isNone = true ∧ ¬ k ∈ rootNames)
      · rw [if_pos (by simpa using hcond)]
        rw [List.map_cons, List.filter_cons, if_neg (by simpa using hvX)]
        exact ih (fun q hq => hnm q (List.mem_cons_of_mem _ hq)) hX.2
      · rw [if_neg (by simpa using hcond)]
        exact ih (fun q hq => hnm q (List.mem_cons_of_mem _ hq)) hX.2

theorem stub_filter_single (m : List (String × StubRec))
    (dm : List (String × Definition)) (X : String) (r : StubRec)
    (hnd : (m.map Prod.fst).Nodup)
    (hnm : ∀ p, p ∈ m → (p.2 : StubRec).name = p.1)
    (hl : lookupA m X = some r)
    (hdm : (lookupA dm X).isNone = true)
    (hroot : ¬ X ∈ rootNames) :
    ((m.filter (fun p => (lookupA dm p.1).isNone ∧ ¬ p.1 ∈ rootNames)).map (·.2)).filter
        (fun q => q.name = X) = [r] := by
  induction m with
  | nil => simp [lookupA] at hl
  | cons p rest ih =>
      obtain ⟨k, v⟩ := p
      rw [lookupA] at hl
      simp only [List.map_cons, List.nodup_cons] at hnd
      split_ifs at hl with h0
      · have hv := Option.some.inj hl
        subst hv
        subst h0
        have hvname := hnm (k, v) (List.mem_cons_self _ _)
        rw [List.filter_cons, if_pos (by simp only [decide_eq_true_eq]; exact ⟨hdm, hroot⟩)]
        rw [List.map_cons, List.filter_cons, if_pos (by simpa using hvname)]
        rw [stub_filter_none rest dm k (fun q hq => hnm q (List.mem_cons_of_mem _ hq)) hnd.1]
      · have hvk : v.name = k := hnm (k, v) (List.mem_cons_self _ _)
        have hvX : ¬ (v.name = X) := by
          intro hc
          exact h0 (hvk.symm.trans hc)
        rw [List.filter_cons]
        by_cases hcond : ((lookupA dm k).isNone = true ∧ ¬ k ∈ rootNames)
        · rw [if_pos (by simpa using hcond)]
          rw [List.map_cons, List.filter_cons, if_neg (by simpa using hvX)]
          exact ih hnd.2 (fun q hq => hnm q (List.mem_cons_of_mem _ hq)) hl
        · rw [if_neg (by simpa using hcond)]
          exact ih hnd.2 (fun q hq => hnm q (List.mem_cons_of_mem _ hq)) hl

theorem map_stub_filter (l : List StubRec) (X : String) :
    (l.map stubToDefinition).filter (fun d => d.name = X)
      = (l.filter (fun r => r.name = X)).map stubToDefinition := by
  induction l with
  | nil => rfl
  | cons r rest ih =>
      rw [List.map_cons, List.filter_cons, List.filter_cons]
      by_cases hn : r.name = X
      · rw [if_pos (by simpa [stubToDefinition] using hn), if_pos (by simpa using hn)]
        rw [List.map_cons, ih]
      · rw [if_neg (by simpa [stubToDefinition] using hn), if_neg (by simpa using hn)]
        exact ih

theorem nameBinding_ext_fields : ∀ (l : List Definition) (t : SType),
    (∀ d, d ∈ l → ∃ k2, d.kind = .typeExt k2) →
    ∃ t2, nameBinding (some t) l = some t2
      ∧ t2.fields = l.foldl (fun acc d => mergeFields acc d.fields) t.fields := by
  intro l
  induction l with
  | nil => intro t _; exact ⟨t, rfl, rfl⟩
  | cons d rest ih =>
      intro t hk
      obtain ⟨k2, hk2⟩ := hk d (List.mem_cons_self _ _)
      have hstep : nameStep (some t) d
          = some { t with fields := mergeFields t.fields d.fields,
                          extDirectives := t.extDirectives ++ d.directives } := by
        unfold nameStep
        rw [hk2]
      rw [nameBinding, List.foldl_cons, ← nameBinding, hstep]
      obtain ⟨t2, h1, h2⟩ := ih _ (fun q hq => hk q (List.mem_cons_of_mem _ hq))
      refine ⟨t2, h1, ?_⟩
      rw [h2, List.foldl_cons]

theorem lookupA_setQueryStub_ne (s : Schema) (X : String) (h : ¬ X = "Query") :
    lookupA (setQueryStub s).types X = lookupA s.types X := by
  unfold setQueryStub
  dsimp only
  rw [lookupA_upsert, if_neg (fun hc => h hc.symm)]

theorem v2_addService_types (s : Schema) (sdl : List Definition) :
    (V2.addServiceResolver s sdl).types = s.types := rfl

theorem v2_addEntities_lookup_ne (s : Schema) (X : String)
    (h1 : ¬ X = "_Entity") (h2 : ¬ X = "Query") :
    lookupA (V2.addEntitiesResolver s).types X = lookupA s.types X := by
  dsimp only [V2.addEntitiesResolver]
  split
  · rfl
  · rw [lookupA_extendSchemaModel]
    have hf : ([⟨.typeDef .union, "_Entity", [], []⟩,
        ⟨.typeExt .object, "Query", [⟨"_entities", []⟩], []⟩]
          : List Definition).filter (fun d => d.name = X) = [] := by
      rw [List.filter_cons,
        if_neg (by simpa using (show ¬ ("_Entity" = X) from fun hc => h1 hc.symm))]
      rw [List.filter_cons,
        if_neg (by simpa using (show ¬ ("Query" = X) from fun hc => h2 hc.symm))]
      rfl
    rw [hf]
    rfl

/-- C7 (confirmed): a type declared only through extension syntax (or
definition syntax tagged `extends`), with no base definition of its name
in the document and whose name is not a conventional root name, yields
exactly one synthesized stub (an empty definition node), and the schema
composed by the second implementation contains that type carrying
exactly the fields the extensions contributed (after gateway-mode
`external` removal), hence a non-empty type whenever the contributed
field list is non-empty. -/
theorem c7_extension_only_type {E : Type} (validate : List Definition → Schema → List E)
    (originalSchema : Schema) (docDefs : List Definition) (isGateway : Bool)
    (X : String) (s : Schema)
    (hroot : ¬ X ∈ rootNames)
    (hent : ¬ X = "_Entity")
    (horig : lookupA originalSchema.types X = none)
    (hsome : ∃ d, d ∈ docDefs ∧ d.name = X ∧ goodExtensionDecl d)
    (hall : ∀ d, d ∈ docDefs → d.name = X → goodExtensionDecl d)
    (hok : V2.extendFederationSchema validate originalSchema docDefs isGateway = .ok s) :
    (∃ k, (V2.getStubTypes docDefs isGateway).typeStubs.filter (fun r => r.name = X)
        = [⟨.typeDef k, X⟩])
  ∧ (∀ r, r ∈ (V2.getStubTypes docDefs isGateway).typeStubs →
        (stubToDefinition r).fields = [])
  ∧ (∃ t, lookupA s.types X = some t
        ∧ t.fields = contributedFields docDefs X isGateway
        ∧ (contributedFields docDefs X isGateway ≠ [] → t.fields ≠ [])) := by
  have hXQ : ¬ X = "Query" := by
    intro hc
    exact hroot (by simp [rootNames, hc])
  have hX := v2_fold_X isGateway X docDefs initPartition hall
  obtain ⟨d0, hd0, hd0n, hd0g⟩ := hsome
  obtain ⟨k, hk⟩ := v2_fold_X_extsMap isGateway X docDefs initPartition hall
    (Or.inr ⟨d0, hd0, hd0n⟩)
  have hnodup := v2_fold_extsMap_nodup isGateway docDefs initPartition
    (by simp [initPartition])
  have hnames := v2_foldl_extsMap_names isGateway docDefs initPartition
    (by intro p hp; simp [initPartition] at hp)
  have hdnames := v2_fold_defsMap_names isGateway docDefs initPartition
    (by intro p hp; simp [initPartition] at hp)
  have hdm : lookupA (docDefs.foldl (V2.processDef isGateway)
      initPartition).definitionsMap X = none := by
    rw [hX.1]
    rfl
  have hstub1 : (V2.getStubTypes docDefs isGateway).typeStubs.filter
      (fun r => r.name = X) = [⟨.typeDef k, X⟩] := by
    dsimp only [V2.getStubTypes]
    exact stub_filter_single _ _ X _ hnodup hnames hk (by rw [hdm]; rfl) hroot
  have hb1 : lookupA (extendSchemaModel originalSchema
      ((V2.getStubTypes docDefs isGateway).typeStubs.map stubToDefinition)).types X
      = some ⟨k, [], [], []⟩ := by
    rw [lookupA_extendSchemaModel, horig, map_stub_filter, hstub1]
    rfl
  have hb2 : lookupA (V2.preValidationSchema originalSchema docDefs isGateway).types X
      = some ⟨k, [], [], []⟩ := by
    unfold V2.preValidationSchema
    dsimp only
    rw [lookupA_extendSchemaModel, hb1]
    have hdefs : (V2.getStubTypes docDefs isGateway).definitions.filter
        (fun d => d.name = X) = [] := by
      dsimp only [V2.getStubTypes]
      rw [List.filter_append, hX.2.2,
        assoc_values_filter_none _ X hdnames hdm]
      rfl
    rw [hdefs]
    rfl
  have hb3 : ∃ t, lookupA (extendSchemaModel
      (V2.preValidationSchema originalSchema docDefs isGateway)
      (V2.getStubTypes docDefs isGateway).extensions).types X = some t
      ∧ t.fields = contributedFields docDefs X isGateway := by
    rw [lookupA_extendSchemaModel, hb2]
    have hexts : (V2.getStubTypes docDefs isGateway).extensions.filter
        (fun d => d.name = X)
        = (docDefs.filter (fun q => q.name = X)).map (transformExt isGateway) := by
      dsimp only [V2.getStubTypes]
      rw [hX.2.1]
      rfl
    rw [hexts]
    obtain ⟨t2, h1, h2⟩ := nameBinding_ext_fields
      ((docDefs.filter (fun q => q.name = X)).map (transformExt isGateway))
      ⟨k, [], [], []⟩
      (by
        intro d hd
        obtain ⟨d1, hd1, hd1e⟩ := List.mem_map.mp hd
        have hd1f := List.mem_filter.mp hd1
        have hd1n : d1.name = X := of_decide_eq_true hd1f.2
        obtain ⟨k2, hk2⟩ := transformExt_kind_good isGateway d1
          (hall d1 hd1f.1 hd1n)
        exact ⟨k2, by rw [← hd1e]; exact hk2⟩)
    refine ⟨t2, h1, ?_⟩
    rw [h2, List.foldl_map]
    rfl
  refine ⟨⟨k, hstub1⟩, fun r _ => rfl, ?_⟩
  unfold V2.extendFederationSchema at hok
  rcases hve : V2.validationErrors validate originalSchema docDefs isGateway
    with _ | ⟨e, _ | ⟨e2, rest⟩⟩ <;> rw [hve] at hok
  · dsimp only at hok
    obtain ⟨t, ht1, ht2⟩ := hb3
    cases isGateway with
    | true =>
        rw [if_pos rfl] at hok
        have hs := Except.ok.inj hok
        subst hs
        exact ⟨t, ht1, ht2, fun hne => by rw [ht2]; exact hne⟩
    | false =>
        rw [if_neg (by simp)] at hok
        have hs := Except.ok.inj hok
        subst hs
        refine ⟨t, ?_, ht2, fun hne => by rw [ht2]; exact hne⟩
        rw [v2_addEntities_lookup_ne _ _ hent hXQ, v2_addService_types]
        by_cases hq : (lookupA (extendSchemaModel
            (V2.preValidationSchema originalSchema docDefs false)
            (V2.getStubTypes docDefs false).extensions).types "Query").isSome
        · rw [if_pos hq]
          exact ht1
        · rw [if_neg hq, lookupA_setQueryStub_ne _ _ hXQ]
          exact ht1
  · exact absurd hok (by simp)
  · exact absurd hok (by simp)

/-- C7 witness: on a document declaring `Product` only as an extension
(with one `external` field), gateway-mode composition emits exactly one
empty `Product` stub and the composed schema carries `Product` with the
extension's non-external field. -/
theorem c7_witness :
    (V2.getStubTypes c7Doc true).typeStubs.filter (fun r => r.name = "Product")
      = [⟨.typeDef .object, "Product"⟩]
  ∧ ∃ t, lookupA c7wSchema.types "Product" = some t
      ∧ t.fields = contributedFields c7Doc "Product" true := by
  have h := c7_extension_only_type noErrValidate
    (extendSchemaModel emptySchema baseFederationDefs) c7Doc true "Product" c7wSchema
    (by decide) (by decide) rfl
    ⟨⟨.typeExt .object, "Product", [⟨"id", []⟩, ⟨"price", ["external"]⟩], []⟩,
      by simp [c7Doc], rfl, Or.inl ⟨rfl, rfl⟩⟩
    (by
      intro d hd _
      have hd2 : d = ⟨.typeExt .object, "Product",
          [⟨"id", []⟩, ⟨"price", ["external"]⟩], []⟩ := by
        simpa [c7Doc] using hd
      rw [hd2]
      exact Or.inl ⟨rfl, rfl⟩)
    rfl
  obtain ⟨_, _, ⟨t, ht1, ht2, _⟩⟩ := h
  exact ⟨rfl, ⟨t, ht1, ht2⟩⟩
